import Mathlib

/-!
# luaw: marshalling between host values and the Lua stack

A shallow embedding of `src/contrib/libwengine/luaw/luaw.{hh,inl,cc}`.

The Lua engine itself is an external collaborator.  Its C API is modelled
here after the Lua 5.3/5.4 reference manual, over an explicit state: a value
stack and a heap of tables (tables are reference values).  Tables carry no
metatables in this model, so `lua_getfield` coincides with a raw read.

Conventions
* the stack is a list whose HEAD is the TOP of the stack;
* a failing engine call (`luaL_error`, `lua_error`) is `Except.error`, and the
  error value records the state at the moment it was raised;
* calls the reference manual leaves undefined (for instance `lua_rawgeti` on a
  slot that is not a table) are `LuaError.api`;
* a C++ template is a definition taking the operations of its type arguments
  as parameters: `luaw_to_<std::vector<T>>` is `luaw_to__Iterable` applied to
  the `luaw_to_` of `T`;
* host text is a list of characters, the zero character included, and
  `c_str` is what a reader of zero-terminated text sees of it;
* the length of a table is its smallest border, the only border of a table
  without holes.
-/

namespace Luaw

/-! ## Engine values -/

/-- Host text (`std::string`): a sequence of characters, any of which may be
the zero character. -/
abbrev Text := List Char

/-- A value held by a stack slot or a table field.  Floats are carried by
their exact rational value (every finite double is a rational). -/
inductive LuaVal where
  | nil
  | boolean (b : Bool)
  | integer (n : Int)
  | number (q : ℚ)
  | string (s : Text)
  | table (ref : Nat)
  | function (id : Nat)
  | userdata (id : Nat)
  | lightuserdata (p : Nat)
  | thread (id : Nat)
  deriving DecidableEq

/-- The type tags returned by `lua_type`. -/
inductive LuaType where
  | TNONE
  | TNIL
  | TBOOLEAN
  | TLIGHTUSERDATA
  | TNUMBER
  | TSTRING
  | TTABLE
  | TFUNCTION
  | TUSERDATA
  | TTHREAD
  deriving DecidableEq

/-- The type tag of a value. -/
def LuaVal.type : LuaVal → LuaType
  | .nil => .TNIL
  | .boolean _ => .TBOOLEAN
  | .integer _ => .TNUMBER
  | .number _ => .TNUMBER
  | .string _ => .TSTRING
  | .table _ => .TTABLE
  | .function _ => .TFUNCTION
  | .userdata _ => .TUSERDATA
  | .lightuserdata _ => .TLIGHTUSERDATA
  | .thread _ => .TTHREAD

/-- A table: an association list, the first binding of a key being the live
one.  A key bound to nil is a dead key: the field is absent (it reads as nil
and a traversal skips it), but its slot is kept, so that a traversal in
progress can go on from it. -/
abbrev LuaTable := List (LuaVal × LuaVal)

/-- Raw read `t[k]`; an absent key reads as nil. -/
def rawget : LuaTable → LuaVal → LuaVal
  | [], _ => .nil
  | (k', v) :: t, k => if k' = k then v else rawget t k

/-- Overwrite the value of the first binding of `k`, which keeps its slot. -/
def rawupdate : LuaTable → LuaVal → LuaVal → LuaTable
  | [], _, _ => []
  | (k', v') :: t, k, v => if k' = k then (k, v) :: t else (k', v') :: rawupdate t k v

/-- Raw write `t[k] = v`.  A key that has a slot keeps it, whatever the value
(assigning nil leaves a dead key); a key without a slot gets a new one, unless
the value is nil. -/
def rawset (t : LuaTable) (k v : LuaVal) : LuaTable :=
  if t.any (fun e => e.1 = k) then rawupdate t k v
  else if v = .nil then t
  else (k, v) :: t

/-- Search for the first border at or after `n`, looking at most `fuel` keys ahead. -/
def borderFrom (t : LuaTable) : Nat → Nat → Nat
  | 0, n => n
  | fuel + 1, n =>
    if rawget t (.integer ((n : Int) + 1)) = .nil then n else borderFrom t fuel (n + 1)

/-- The length `#t` of a table: its smallest border (the least `n` with
`t[n+1] == nil`).  For a table without holes this is the only border. -/
def rawlen (t : LuaTable) : Nat := borderFrom t t.length 0

/-! ## Engine state -/

/-- The engine state: the value stack (top first) and the table heap
(`LuaVal.table r` refers to `heap[r]`). -/
structure LuaState where
  stack : List LuaVal
  heap : List LuaTable
  deriving DecidableEq

/-- An error leaving an engine call. -/
inductive LuaError where
  /-- An error raised through `luaL_error` / `lua_error`, with the state at the raise. -/
  | runtime (msg : Text) (L : LuaState)
  /-- A call the reference manual leaves undefined. -/
  | api (what : Text)
  /-- A `LuawException` thrown by the library, with its message and the state at the throw. -/
  | luawException (msg : Text) (L : LuaState)
  /-- A `std::out_of_range` thrown by the C++ library, with the state at the throw. -/
  | outOfRange (L : LuaState)
  /-- An error object raised by a callable run without protection (`lua_call`). -/
  | thrown (err : LuaVal) (L : LuaState)
  deriving DecidableEq

deriving instance DecidableEq for Except

/-- Computations over the engine state that may raise. -/
def LuaM (α : Type) : Type := LuaState → Except LuaError (α × LuaState)

instance : Monad LuaM where
  pure a := fun L => .ok (a, L)
  bind m f := fun L =>
    match m L with
    | .ok (a, L') => f a L'
    | .error e => .error e

/-- The table a reference denotes in a heap.  The API only ever produces
references inside the heap; one outside it denotes a table without entries. -/
def heapGet (H : List LuaTable) (r : Nat) : LuaTable := H.getD r []

/-- The table a reference denotes. -/
def LuaState.tableAt (L : LuaState) (r : Nat) : LuaTable := heapGet L.heap r

/-- Position, counted from the top, of the slot a stack index names
(positive indices count from the bottom, negative ones from the top). -/
def index2pos (L : LuaState) (idx : Int) : Option Nat :=
  if idx < 0 then
    if (-idx).toNat ≤ L.stack.length then some ((-idx).toNat - 1) else none
  else if 0 < idx ∧ idx.toNat ≤ L.stack.length then some (L.stack.length - idx.toNat)
  else none

/-- The value at a stack index, `none` when the index is not valid. -/
def index2value (L : LuaState) (idx : Int) : Option LuaVal :=
  match index2pos L idx with
  | some p => L.stack[p]?
  | none => none

/-- The engine's conversions between numbers and text, which the library
only reaches through `lua_isnumber`, `lua_tointeger` and `lua_tolstring`. -/
structure Engine where
  /-- Conversion of a string to a number (`none` when it is not a numeral). -/
  str2number : Text → Option LuaVal
  /-- Rendering of a number as text. -/
  number2str : LuaVal → Text

/-! ## Engine API -/

/-- Raises an error with the formatted message `msg`; it never returns.  The
position prefix `luaL_where(L, 1)` the engine puts before the message (empty
when the caller is host code) is left out. -/
def luaL_error {α : Type} (msg : Text) : LuaM α := fun L => .error (.runtime msg L)

/-- A step the C++ or Lua reference leaves undefined. -/
def apiError {α : Type} (what : String) : LuaM α := fun _ => .error (.api what.toList)

/-- The number of slots on the stack. -/
def lua_gettop : LuaM Int := fun L => .ok ((L.stack.length : Int), L)

/-- Sets the top to `idx`: drops slots above it, or fills with nil. -/
def lua_settop (idx : Int) : LuaM Unit := fun L =>
  let n := L.stack.length
  if 0 ≤ idx then
    if idx.toNat ≤ n then
      .ok ((), { L with stack := L.stack.drop (n - idx.toNat) })
    else
      .ok ((), { L with stack := List.replicate (idx.toNat - n) LuaVal.nil ++ L.stack })
  else if (-idx).toNat ≤ n + 1 then
    .ok ((), { L with stack := L.stack.drop ((-idx).toNat - 1) })
  else .error (.api "lua_settop: invalid new top".toList)

/-- The macro `lua_pop(L, n)`, that is `lua_settop(L, -(n)-1)`. -/
def lua_pop (n : Int) : LuaM Unit := lua_settop (-n - 1)

def lua_pushnil : LuaM Unit := fun L => .ok ((), { L with stack := .nil :: L.stack })

def lua_pushboolean (b : Bool) : LuaM Unit := fun L =>
  .ok ((), { L with stack := .boolean b :: L.stack })

def lua_pushinteger (n : Int) : LuaM Unit := fun L =>
  .ok ((), { L with stack := .integer n :: L.stack })

def lua_pushnumber (q : ℚ) : LuaM Unit := fun L =>
  .ok ((), { L with stack := .number q :: L.stack })

/-- The C string a `std::string` hands out through `c_str()`, as a reader of
zero-terminated text sees it: the characters before the first zero. -/
def c_str (s : Text) : Text := s.takeWhile (fun c => c ≠ Char.ofNat 0)

/-- Pushes a copy of the zero-terminated string `s`. -/
def lua_pushstring (s : Text) : LuaM Unit := fun L =>
  .ok ((), { L with stack := .string s :: L.stack })

def lua_pushvalue (idx : Int) : LuaM Unit := fun L =>
  match index2value L idx with
  | some v => .ok ((), { L with stack := v :: L.stack })
  | none => .error (.api "lua_pushvalue: invalid index".toList)

def lua_newtable : LuaM Unit := fun L =>
  .ok ((), { stack := .table L.heap.length :: L.stack, heap := L.heap ++ [[]] })

/-- Type of the slot at `idx`, `TNONE` for a non-valid index. -/
def lua_type (idx : Int) : LuaM LuaType := fun L =>
  match index2value L idx with
  | some v => .ok (v.type, L)
  | none => .ok (.TNONE, L)

def lua_isnil (idx : Int) : LuaM Bool := do
  return (← lua_type idx) = .TNIL

def lua_istable (idx : Int) : LuaM Bool := do
  return (← lua_type idx) = .TTABLE

def lua_isboolean (idx : Int) : LuaM Bool := do
  return (← lua_type idx) = .TBOOLEAN

/-- Conversion of a value to a number, as `lua_isnumber` / `lua_tonumber` see it. -/
def tonumber? (E : Engine) : LuaVal → Option LuaVal
  | .integer n => some (.integer n)
  | .number q => some (.number q)
  | .string s => E.str2number s
  | _ => none

/-- True for a number and for a string convertible to a number. -/
def lua_isnumber (E : Engine) (idx : Int) : LuaM Bool := fun L =>
  match index2value L idx with
  | some v => .ok ((tonumber? E v).isSome, L)
  | none => .ok (false, L)

/-- Wrap an integer into the range of the engine's 64-bit signed integer. -/
def wrapInt64 (x : Int) : Int :=
  (x + 9223372036854775808) % 18446744073709551616 - 9223372036854775808

/-- Conversion of a number to an engine integer: exact for integers and for
floats with an integral value in range, failing otherwise. -/
def numToInteger? : LuaVal → Option Int
  | .integer n => some n
  | .number q =>
    if q.den = 1 ∧ -9223372036854775808 ≤ q.num ∧ q.num < 9223372036854775808 then some q.num
    else none
  | _ => none

/-- The integer `lua_tointeger` returns for a value: 0 when it has none. -/
def toIntegerVal (E : Engine) (v : LuaVal) : Int :=
  match tonumber? E v with
  | some n => (numToInteger? n).getD 0
  | none => 0

def lua_tointeger (E : Engine) (idx : Int) : LuaM Int := fun L =>
  match index2value L idx with
  | some v => .ok (toIntegerVal E v, L)
  | none => .ok (0, L)

/-- Replace the slot at position `p` (from the top). -/
def LuaState.setSlot (L : LuaState) (p : Nat) (v : LuaVal) : LuaState :=
  { L with stack := L.stack.set p v }

/-- `lua_tolstring`: the text of a string slot; a number slot is converted in
place to a string; any other slot yields NULL (`none`). -/
def lua_tostring (E : Engine) (idx : Int) : LuaM (Option Text) := fun L =>
  match index2pos L idx, index2value L idx with
  | some _, some (.string s) => .ok (some s, L)
  | some p, some (.integer n) =>
    .ok (some (E.number2str (.integer n)), L.setSlot p (.string (E.number2str (.integer n))))
  | some p, some (.number q) =>
    .ok (some (E.number2str (.number q)), L.setSlot p (.string (E.number2str (.number q))))
  | _, _ => .ok (none, L)

/-- True for a string and for a number (which is always convertible to a string). -/
def lua_isstring (idx : Int) : LuaM Bool := do
  let t ← lua_type idx
  return t = .TSTRING || t = .TNUMBER

/-- Pushes `t[n]`, where `t` is the table at `idx`, without metamethods. -/
def lua_rawgeti (idx : Int) (n : Int) : LuaM Unit := fun L =>
  match index2value L idx with
  | some (.table r) =>
    .ok ((), { L with stack := rawget (L.tableAt r) (.integer n) :: L.stack })
  | _ => .error (.api "lua_rawgeti: not a table".toList)

/-- Does `t[n] = v`, where `t` is the table at `idx` and `v` the value on top;
pops the value. -/
def lua_rawseti (idx : Int) (n : Int) : LuaM Unit := fun L =>
  match index2value L idx, L.stack with
  | some (.table r), v :: rest =>
    .ok ((), { stack := rest, heap := L.heap.set r (rawset (L.tableAt r) (.integer n) v) })
  | _, _ => .error (.api "lua_rawseti: not a table".toList)

/-- Pushes `t[k]`, where `t` is the value at `idx`.  Indexing a value that is
not a table raises (the model has no metatables). -/
def lua_getfield (idx : Int) (k : Text) : LuaM Unit := fun L =>
  match index2value L idx with
  | some (.table r) =>
    .ok ((), { L with stack := rawget (L.tableAt r) (.string k) :: L.stack })
  | some _ => .error (.runtime "attempt to index a non-table value".toList L)
  | none => .error (.api "lua_getfield: invalid index".toList)

/-- Moves the top element into the valid index `idx`, shifting up the
elements above that index. -/
def lua_insert (idx : Int) : LuaM Unit := fun L =>
  match index2pos L idx, L.stack with
  | some p, x :: rest => .ok ((), { L with stack := rest.take p ++ x :: rest.drop p })
  | _, _ => .error (.api "lua_insert: invalid index".toList)

/-- Raises unless the slot at `idx` has type `t`. -/
def luaL_checktype (idx : Int) (t : LuaType) : LuaM Unit := do
  if (← lua_type idx) = t then pure () else luaL_error "bad argument: type expected".toList

/-- `lua_objlen`, the name of the raw length (`lua_rawlen`) in the 5.1 API:
the length of a string, the border of a table (no metamethod is called), and
0 for any other value, a non-valid index included.  The model keeps no
userdata blocks, so a userdata reads as a block of size 0. -/
def lua_objlen (idx : Int) : LuaM Int := fun L =>
  match index2value L idx with
  | some (.table r) => .ok ((rawlen (L.tableAt r) : Int), L)
  | some (.string s) => .ok ((s.length : Int), L)
  | _ => .ok (0, L)

/-- Does `t[k] = v`, where `t` is the value at `idx` and `v` the value on top;
pops the value.  Indexing a value that is not a table raises (the model has
no metatables). -/
def lua_setfield (idx : Int) (k : Text) : LuaM Unit := fun L =>
  match index2value L idx, L.stack with
  | some (.table r), v :: rest =>
    .ok ((), { stack := rest, heap := L.heap.set r (rawset (L.tableAt r) (.string k) v) })
  | some _, _ :: _ => .error (.runtime "attempt to index a non-table value".toList L)
  | _, _ => .error (.api "lua_setfield: invalid index".toList)

/-- Removes the element at the valid index `idx`, shifting down the elements
above it. -/
def lua_remove (idx : Int) : LuaM Unit := fun L =>
  match index2pos L idx with
  | some p =>
    if p < L.stack.length then .ok ((), { L with stack := L.stack.eraseIdx p })
    else .error (.api "lua_remove: invalid index".toList)
  | none => .error (.api "lua_remove: invalid index".toList)

/-- The truth value of the slot: false for nil, false and a non-valid index. -/
def lua_toboolean (idx : Int) : LuaM Bool := fun L =>
  match index2value L idx with
  | some .nil => .ok (false, L)
  | some (.boolean b) => .ok (b, L)
  | some _ => .ok (true, L)
  | none => .ok (false, L)

/-- The number `lua_tonumber` returns for a slot, as an exact rational: 0
when the slot has none. -/
def lua_tonumber (E : Engine) (idx : Int) : LuaM ℚ := fun L =>
  match index2value L idx with
  | some v =>
    match tonumber? E v with
    | some (.integer n) => .ok ((n : ℚ), L)
    | some (.number q) => .ok (q, L)
    | _ => .ok (0, L)
  | none => .ok (0, L)

/-- The address `lua_touserdata` returns: 0 (NULL) unless the slot holds a
userdata or a light userdata. -/
def lua_touserdata (idx : Int) : LuaM Nat := fun L =>
  match index2value L idx with
  | some (.userdata id) => .ok (id, L)
  | some (.lightuserdata p) => .ok (p, L)
  | _ => .ok (0, L)

/-- The C++ library functions the dumper formats its leaves with. -/
structure StdLib where
  /-- `std::to_string(double)`. -/
  to_string_double : ℚ → Text
  /-- The text `snprintf` writes for `%p`. -/
  pointer : Nat → Text

/-- `round`: to the nearest integer, halves away from zero. -/
def roundHalfAway (q : ℚ) : ℤ :=
  if 0 ≤ q then ⌊q + 1 / 2⌋ else -⌊-q + 1 / 2⌋

/-- The conversion `(int) n` of a double: truncation toward zero.  Outside
the range of `int` the C++ standard leaves it undefined (`none`); a build is
free to yield any value there, the conversion instruction of x86 yields
-2147483648. -/
def truncToInt (q : ℚ) : Option ℤ :=
  let t : ℤ := if 0 ≤ q then ⌊q⌋ else -⌊-q⌋
  if -2147483648 ≤ t ∧ t ≤ 2147483647 then some t else none

/-- The difference `a - b` of two `size_t` values. -/
def sizeSub (a b : Nat) : Nat :=
  if b ≤ a then a - b else a + 18446744073709551616 - b

/-- `s.substr(0, count)`. -/
def substr0 (s : Text) (count : Nat) : Text := s.take count

/-- The entries that follow the first binding of `k`, `none` when `k` is not
a key of the table. -/
def entriesAfter : LuaTable → LuaVal → Option LuaTable
  | [], _ => none
  | (k', _) :: t, k => if k' = k then some t else entriesAfter t k

/-- Pops a key and pushes the next key-value pair of the table at `idx`
(returning 1), or pushes nothing when no pair follows the key (returning 0).
The traversal order is the order of the slots; nil asks for the first pair,
and dead keys are skipped. -/
def lua_next (idx : Int) : LuaM Int := fun L =>
  match index2value L idx, L.stack with
  | some (.table r), k :: rest =>
    match (if k = .nil then some (L.tableAt r) else entriesAfter (L.tableAt r) k) with
    | some es =>
      match es.dropWhile (fun e => e.2 = .nil) with
      | (k', v') :: _ => .ok (1, { L with stack := v' :: k' :: rest })
      | [] => .ok (0, { L with stack := rest })
    | none => .error (.runtime "invalid key to next".toList L)
  | _, _ => .error (.api "lua_next: not a table".toList)

/-- What calling an engine-resident callable does: it returns results or
raises an error object, and leaves the heap it leaves. -/
inductive CallOutcome where
  | returns (results : List LuaVal) (heap : List LuaTable)
  | raises (err : LuaVal) (heap : List LuaTable)
  deriving DecidableEq

/-- The part of the engine that runs code: where the globals table lives in
the heap, and what calling a value with arguments does. -/
structure Interp where
  /-- Reference of the globals table. -/
  globals : Nat
  /-- Behaviour of a call of `f` with `args` on a heap. -/
  call : LuaVal → List LuaVal → List LuaTable → CallOutcome

/-- The status codes of `lua_pcall`. -/
inductive LuaStatus where
  | LUA_OK
  | LUA_ERRRUN
  | LUA_ERRMEM
  | LUA_ERRERR
  deriving DecidableEq

/-- Pushes the global `name`. -/
def lua_getglobal (I : Interp) (name : Text) : LuaM Unit := fun L =>
  .ok ((), { L with stack := rawget (heapGet L.heap I.globals) (.string name) :: L.stack })

/-- Pushes a C function; `id` is the identity of the function for the engine. -/
def lua_pushcfunction (id : Nat) : LuaM Unit := fun L =>
  .ok ((), { L with stack := .function id :: L.stack })

/-- The results of a call adjusted to `nresults` values (all of them for
`LUA_MULTRET`, a negative count). -/
def adjustResults (rs : List LuaVal) (nresults : Int) : List LuaVal :=
  if nresults < 0 then rs
  else (rs ++ List.replicate nresults.toNat LuaVal.nil).take nresults.toNat

/-- Calls the function below its `nargs` arguments without protection: an
error of the callee propagates. -/
def lua_call (I : Interp) (nargs nresults : Int) : LuaM Unit := fun L =>
  if 0 ≤ nargs then
    match L.stack.drop nargs.toNat with
    | f :: rest =>
      match I.call f (L.stack.take nargs.toNat).reverse L.heap with
      | .returns rs H => .ok ((), { stack := (adjustResults rs nresults).reverse ++ rest, heap := H })
      | .raises e H => .error (.thrown e { stack := L.stack, heap := H })
    | [] => .error (.api "lua_call: no function".toList)
  else .error (.api "lua_call: negative nargs".toList)

/-- Runs the body of a C function on a frame holding its arguments; the body
returns the number of its results, taken from the top of the frame. -/
def runCFunction (body : LuaM Int) (args : List LuaVal) (H : List LuaTable) : CallOutcome :=
  match body { stack := args.reverse, heap := H } with
  | .ok (n, L') => .returns (L'.stack.take n.toNat).reverse L'.heap
  | .error (.runtime msg Lr) => .raises (.string msg) Lr.heap
  | .error (.thrown e Lr) => .raises e Lr.heap
  | .error (.luawException msg Lr) => .raises (.string msg) Lr.heap
  | .error (.outOfRange Lr) => .raises (.string "out of range".toList) Lr.heap
  | .error (.api what) => .raises (.string what) H

/-! ## luaw.cc / luaw.inl -/

/-- `luaw_len` (luaw.cc:196).  The test `#if LUAW == JIT` compares two names
that the sources define nowhere; a name that is not a macro reads as 0 in a
preprocessor condition, so the test holds and the `lua_objlen` branch is the
one compiled. -/
def luaw_len (idx : Int) : LuaM Int := lua_objlen idx

/-- `luaw_to<T>` (luaw.inl:133): the type check is commented out, so it is
exactly `luaw_to_<T>`. -/
def luaw_to {α : Type} (luaw_to_ : Int → LuaM α) (index : Int) : LuaM α :=
  luaw_to_ index

/-- `luaw_pop<T>` (luaw.inl:155). -/
def luaw_pop {α : Type} (luaw_to_ : Int → LuaM α) : LuaM α := do
  let t ← luaw_to luaw_to_ (-1)
  lua_pop 1
  return t

/-! ### integer (luaw.inl:166-175) -/

/-- Width of a host integral type. -/
inductive IntWidth where
  | w8
  | w16
  | w32
  | w64
  deriving DecidableEq

/-- Number of values of a width: 2^8, 2^16, 2^32, 2^64. -/
def IntWidth.modulus : IntWidth → Int
  | .w8 => 256
  | .w16 => 65536
  | .w32 => 4294967296
  | .w64 => 18446744073709551616

/-- A host integral type (the `IntegerType` concept): a width and a signedness. -/
structure IntegerType where
  width : IntWidth
  signed : Bool
  deriving DecidableEq

/-- The values a host integral type holds. -/
def IntegerType.inRange (T : IntegerType) (n : Int) : Prop :=
  if T.signed then -(T.width.modulus / 2) ≤ n ∧ n < T.width.modulus / 2
  else 0 ≤ n ∧ n < T.width.modulus

instance (T : IntegerType) (n : Int) : Decidable (T.inRange n) := by
  unfold IntegerType.inRange; exact inferInstance

/-- The C++ conversion `(T) x` of an engine integer: reduction modulo 2^width. -/
def IntegerType.cast (T : IntegerType) (x : Int) : Int :=
  if T.signed then (x + T.width.modulus / 2) % T.width.modulus - T.width.modulus / 2
  else x % T.width.modulus

/-- `luaw_push<IntegerType>` (luaw.inl:168); the argument converts to `lua_Integer`. -/
def luaw_push_IntegerType (t : Int) : LuaM Int := do
  lua_pushinteger (wrapInt64 t)
  return 1

/-- `luaw_is<IntegerType>` (luaw.inl:169). -/
def luaw_is_IntegerType (E : Engine) (index : Int) : LuaM Bool := do
  if !(← lua_isnumber E index) then
    return false
  else
    return (← lua_tointeger E index) = (← lua_tointeger E index)

/-- `luaw_to_<IntegerType>` (luaw.inl:175). -/
def luaw_to__IntegerType (E : Engine) (T : IntegerType) (index : Int) : LuaM Int := do
  return T.cast (← lua_tointeger E index)

/-! ### text (luaw.cc:213-215) -/

/-- `luaw_push<std::string>` (luaw.cc:213). -/
def luaw_push_string (t : Text) : LuaM Int := do
  lua_pushstring (c_str t)
  return 1

/-- `luaw_is<std::string>` (luaw.cc:214). -/
def luaw_is_string (index : Int) : LuaM Bool := lua_isstring index

/-- `luaw_to_<std::string>` (luaw.cc:215): a `std::string` built from the
`const char*` that `lua_tostring` returns, hence read up to the first zero.
Building it from NULL is undefined. -/
def luaw_to__string (E : Engine) (index : Int) : LuaM Text := do
  match (← lua_tostring E index) with
  | some s => return c_str s
  | none => apiError "std::string constructed from a null pointer"

/-! ### boolean (luaw.cc:205-207) -/

/-- `luaw_push<bool>` (luaw.cc:205). -/
def luaw_push_bool (t : Bool) : LuaM Int := do
  lua_pushboolean t
  return 1

/-- `luaw_is<bool>` (luaw.cc:206). -/
def luaw_is_bool (index : Int) : LuaM Bool := lua_isboolean index

/-! ### table: vector, set... (luaw.inl:251-271)

The C `int` counters of the loops are taken as mathematical integers: no
wrap-around is modelled, which covers containers below 2^31 elements. -/

/-- The `for (auto const& v : t)` loop of `luaw_push<Iterable>` (luaw.inl:254). -/
def luaw_push_Iterable_loop {α : Type} (luaw_push : α → LuaM Int) : List α → Int → LuaM Unit
  | [], _ => pure ()
  | v :: rest, i => do
    let _ ← luaw_push v
    lua_rawseti (-2) i
    luaw_push_Iterable_loop luaw_push rest (i + 1)

/-- `luaw_push<Iterable>` (luaw.inl:251), for the element push `luaw_push`. -/
def luaw_push_Iterable {α : Type} (luaw_push : α → LuaM Int) (t : List α) : LuaM Int := do
  lua_newtable
  let i : Int := 1
  luaw_push_Iterable_loop luaw_push t i
  return 1

/-- `luaw_is<Iterable>` (luaw.inl:260). -/
def luaw_is_Iterable (index : Int) : LuaM Bool := lua_istable index

/-- The `for (int i = 1; i <= sz; ++i)` loop of `luaw_to_<Iterable>`
(luaw.inl:265); the first argument counts the iterations still to run. -/
def luaw_to__Iterable_loop {α : Type} (luaw_to_ : Int → LuaM α) (index : Int) :
    Nat → Int → List α → LuaM (List α)
  | 0, _, ts => pure ts
  | n + 1, i, ts => do
    lua_rawgeti index i
    let x ← luaw_to luaw_to_ (-1)
    lua_pop 1
    luaw_to__Iterable_loop luaw_to_ index n (i + 1) (ts ++ [x])

/-- `luaw_to_<Iterable>` (luaw.inl:261), for the element conversion `luaw_to_`. -/
def luaw_to__Iterable {α : Type} (luaw_to_ : Int → LuaM α) (index : Int) : LuaM (List α) := do
  luaL_checktype index .TTABLE
  let ts : List α := []
  let sz ← luaw_len index
  luaw_to__Iterable_loop luaw_to_ index sz.toNat 1 ts

/-! ### optional (luaw.inl:275-292) -/

/-- `luaw_push<Optional>` (luaw.inl:275). -/
def luaw_push_Optional {α : Type} (luaw_push : α → LuaM Int) (t : Option α) : LuaM Int := do
  match t with
  | some v => let _ ← luaw_push v
  | none => lua_pushnil
  return 1

/-- `luaw_is<Optional>` (luaw.inl:282). -/
def luaw_is_Optional (luaw_is : Int → LuaM Bool) (index : Int) : LuaM Bool := do
  if index > (← lua_gettop) then
    return true
  if (← lua_isnil index) then return true else luaw_is index

/-- `luaw_to_<Optional>` (luaw.inl:287). -/
def luaw_to__Optional {α : Type} (luaw_to_ : Int → LuaM α) (index : Int) :
    LuaM (Option α) := do
  if index > (← lua_gettop) then
    return none
  if (← lua_isnil index) then
    return none
  else
    return some (← luaw_to luaw_to_ index)

/-! ### tuple (luaw.inl:296-341)

A tuple type is given by the list of its per-position operations, a tuple
value by the list of the pushes of its components. -/

/-- The fold `((luaw_push(L, args), lua_rawseti(L, -2, i++)), ...)` of
`luaw_push<Tuple>` (luaw.inl:299). -/
def luaw_push_Tuple_fold : List (LuaM Int) → Int → LuaM Unit
  | [], _ => pure ()
  | push_arg :: rest, i => do
    let _ ← push_arg
    lua_rawseti (-2) i
    luaw_push_Tuple_fold rest (i + 1)

/-- `luaw_push<Tuple>` (luaw.inl:296). -/
def luaw_push_Tuple (args : List (LuaM Int)) : LuaM Int := do
  lua_newtable
  let i : Int := 1
  luaw_push_Tuple_fold args i
  return 1

/-- `tuple_element_is<T, I>` (luaw.inl:303); the list holds the tests of the
positions from `I` on, so `I < std::tuple_size_v<T>` is its being non-empty. -/
def tuple_element_is : List (Int → LuaM Bool) → Nat → LuaM Bool
  | [], _ => pure true
  | luaw_is :: rest, I => do
    lua_rawgeti (-1) ((I : Int) + 1)
    let is ← luaw_is (-1)
    lua_pop 1
    if !is then
      return false
    else
      tuple_element_is rest (I + 1)

/-- `luaw_is<Tuple>` (luaw.inl:318). -/
def luaw_is_Tuple (T : List (Int → LuaM Bool)) (index : Int) : LuaM Bool := do
  let is : Bool ← (do
    if (← lua_type index) = .TTABLE then
      let len ← luaw_len index
      pure (decide (len = (T.length : Int)))
    else
      pure false)
  if is then
    tuple_element_is T 0
  else
    return false

/-- `tuple_element_set<T, I>` (luaw.inl:326); the list holds the conversions
of the positions from `I` on, the result the components set. -/
def tuple_element_set {α : Type} (index : Int) : List (Int → LuaM α) → Nat → LuaM (List α)
  | [], _ => pure []
  | luaw_to_ :: rest, I => do
    lua_rawgeti index ((I : Int) + 1)
    let x ← luaw_pop luaw_to_
    let xs ← tuple_element_set index rest (I + 1)
    return x :: xs

/-- `luaw_to_<Tuple>` (luaw.inl:336). -/
def luaw_to__Tuple {α : Type} (T : List (Int → LuaM α)) (index : Int) : LuaM (List α) :=
  tuple_element_set index T 0

/-! ### fields (luaw.cc:224-279, luaw.inl:506-512) -/

/-- One `std::getline(iss, property, '.')` on the unread part `iss` of the
stream: fails at end of input, otherwise yields the characters before the next
dot and consumes that dot. -/
def getline (iss : Text) : Option (Text × Text) :=
  match iss with
  | [] => none
  | _ :: _ => some (iss.takeWhile (fun c => c ≠ '.'), (iss.dropWhile (fun c => c ≠ '.')).drop 1)

/-- The successive results of `std::getline(iss, property, '.')` until it fails. -/
def getlines : Text → List Text
  | [] => []
  | c :: cs =>
    if c = '.' then [] :: getlines cs
    else
      match getlines cs with
      | [] => [[c]]
      | seg :: rest => (c :: seg) :: rest

/-- The message of `luaL_error(L, "Field '%s' not found.", field.c_str())`. -/
def fieldNotFound (field : Text) : Text :=
  "Field ".toList ++ [Char.ofNat 39] ++ c_str field ++ [Char.ofNat 39] ++ " not found.".toList

/-- The `while (std::getline(...))` loop of the qualified `luaw_getfield`
(luaw.cc:235-243) followed by the code after it (luaw.cc:245-246).  The
argument lists the segments still to be read, so `iss.peek() != EOF` is
`rest ≠ []`. -/
def luaw_getfield_loop (field : Text) (top : Int) : List Text → Int → LuaM Unit
  | [], levels => do
    lua_insert (top + 1)
    lua_pop levels
  | property :: rest, levels => do
    lua_getfield (-1) (c_str property)
    let type ← lua_type (-1)
    if type = .TNIL || (!rest.isEmpty && type ≠ .TTABLE) then
      lua_settop top
      luaL_error (fieldNotFound field)
    else
      luaw_getfield_loop field top rest (levels + 1)

/-- `luaw_getfield` (luaw.cc:224). -/
def luaw_getfield (index : Int) (field : Text) (qualified_search : Bool) : LuaM Unit :=
  if qualified_search then do
    let top ← lua_gettop
    let levels : Int := 0
    lua_pushvalue index
    luaw_getfield_loop field top (getlines field) levels
  else
    lua_getfield index (c_str field)

/-- The loop of the qualified `luaw_hasfield` (luaw.cc:262-269) followed by
the code after it (luaw.cc:271-272). -/
def luaw_hasfield_loop (top : Int) : List Text → LuaM Bool
  | [] => do
    lua_settop top
    return true
  | property :: rest => do
    lua_getfield (-1) (c_str property)
    let type ← lua_type (-1)
    if type = .TNIL || (!rest.isEmpty && type ≠ .TTABLE) then
      lua_settop top
      return false
    else
      luaw_hasfield_loop top rest

/-- `luaw_hasfield` (luaw.cc:252). -/
def luaw_hasfield (index : Int) (field : Text) (qualified_search : Bool) : LuaM Bool :=
  if qualified_search then do
    let top ← lua_gettop
    lua_pushvalue index
    luaw_hasfield_loop top (getlines field)
  else do
    lua_getfield index (c_str field)
    let r ← lua_isnil (-1)
    lua_pop 1
    return r

/-- `luaw_getfield<T>` (luaw.inl:506), for a `T` that is not an optional. -/
def luaw_getfield_T {α : Type} (luaw_to_ : Int → LuaM α) (index : Int) (field : Text)
    (qualified_search : Bool) : LuaM α := do
  luaw_getfield index field qualified_search
  let t ← luaw_to luaw_to_ (-1)
  lua_pop 1
  return t

/-- The loop `for (size_t i = 0; i < ps.size() - 1; ++i)` of the qualified
`luaw_setfield` (luaw.cc:296-304), over the segments before the last one.
`iss` is what is left of the stream when the loop runs. -/
def luaw_setfield_loop (field : Text) (top : Int) (iss : Text) : List Text → Int → LuaM Int
  | [], levels => pure levels
  | property :: rest, levels => do
    lua_getfield (-1) (c_str property)
    let type ← lua_type (-1)
    if type = .TNIL || (!iss.isEmpty && type ≠ .TTABLE) then
      lua_settop top
      luaL_error (fieldNotFound field)
    else
      luaw_setfield_loop field top iss rest (levels + 1)

/-- `luaw_setfield` (luaw.cc:281); the value to store is on top of the stack.
The `while (std::getline(...))` loop fills `ps` and reads the stream to its
end, so nothing of it is left for `iss.peek()`.  With `ps` empty,
`ps.size() - 1` wraps around and `ps.at(0)` throws. -/
def luaw_setfield (index : Int) (field : Text) (qualified_search : Bool) : LuaM Unit :=
  if qualified_search then do
    let ps := getlines field
    let iss : Text := []
    let top ← lua_gettop
    let levels : Int := 0
    lua_pushvalue index
    match ps.getLast? with
    | none => fun L => .error (.outOfRange L)
    | some last => do
      let levels ← luaw_setfield_loop field top iss ps.dropLast levels
      lua_pushvalue (-levels - 2)
      lua_setfield (-2) (c_str last)
      lua_settop (top - 1)
  else
    lua_setfield index (c_str field)

/-- `luaw_setfield<T>` (luaw.inl:514), for the push `luaw_push` of the value. -/
def luaw_setfield_T (luaw_push : LuaM Int) (index : Int) (field : Text)
    (qualified_search : Bool) : LuaM Unit := do
  let _ ← luaw_push
  luaw_setfield (index - 1) field qualified_search

/-- `luaw_getfield<Optional>` (luaw.inl:498), for the conversion `luaw_to_`
of the value type.  The inner read is the three-argument call
`luaw_getfield<value_type>(L, index, field)`, whose `qualified_search` is the
default `false` of the declaration in luaw.hh. -/
def luaw_getfield_Optional {α : Type} (luaw_to_ : Int → LuaM α) (index : Int) (field : Text)
    (qualified_search : Bool) : LuaM (Option α) := do
  if (← luaw_hasfield index field qualified_search) then
    return some (← luaw_getfield_T luaw_to_ index field false)
  else
    return none

/-! ### calls (luaw.inl:524-565) -/

/-- The identity under which the engine knows the C function
`luaw_error_handler`; every other function value is an engine-resident
callable, whose behaviour `Interp.call` gives. -/
def luaw_error_handler_id : Nat := 0

/-- `luaw_error_handler` (luaw.inl:532), run on its own frame whose slot 1 is
the error object. -/
def luaw_error_handler (I : Interp) : LuaM Int := do
  lua_getglobal I "debug".toList
  lua_getfield (-1) "traceback".toList
  lua_pushvalue 1
  lua_pushnumber 2
  lua_call I 2 1
  return 1

/-- A call as the engine runs it: the C function `luaw_error_handler` by its
body, anything else by `Interp.call`. -/
def callValue (I : Interp) (f : LuaVal) (args : List LuaVal) (H : List LuaTable) :
    CallOutcome :=
  if f = .function luaw_error_handler_id then runCFunction (luaw_error_handler I) args H
  else I.call f args H

/-- `lua_pcall(L, nargs, nresults, msgh)`: calls the function below its
`nargs` arguments.  On success function and arguments are replaced by the
adjusted results.  On an error they are replaced by one value: the error
object, or with `msgh ≠ 0` what the message handler at index `msgh` returns
for it. -/
def lua_pcall (I : Interp) (nargs nresults msgh : Int) : LuaM LuaStatus := fun L =>
  if 0 ≤ nargs then
    match L.stack.drop nargs.toNat with
    | f :: rest =>
      match callValue I f (L.stack.take nargs.toNat).reverse L.heap with
      | .returns rs H =>
        .ok (.LUA_OK, { stack := (adjustResults rs nresults).reverse ++ rest, heap := H })
      | .raises e H =>
        if msgh = 0 then .ok (.LUA_ERRRUN, { stack := e :: rest, heap := H })
        else
          match index2value L msgh with
          | some h =>
            match callValue I h [e] H with
            | .returns ms H' =>
              .ok (.LUA_ERRRUN, { stack := ms.headD LuaVal.nil :: rest, heap := H' })
            | .raises e' H' => .ok (.LUA_ERRERR, { stack := e' :: rest, heap := H' })
          | none => .error (.api "lua_pcall: invalid message handler".toList)
    | [] => .error (.api "lua_pcall: no function".toList)
  else .error (.api "lua_pcall: negative nargs".toList)

/-- `luaw_pcall` (luaw.inl:542).  `LuawException(const char*)` copies the
zero-terminated text `lua_tostring(L, -1)`; from NULL it is undefined. -/
def luaw_pcall (E : Engine) (I : Interp) (nargs nresults : Int) : LuaM Unit := do
  let hpos := (← lua_gettop) - nargs
  lua_pushcfunction luaw_error_handler_id
  lua_insert hpos
  let r ← lua_pcall I nargs nresults hpos
  lua_remove hpos
  if r ≠ .LUA_OK then
    match (← lua_tostring E (-1)) with
    | some msg => fun L => .error (.luawException (c_str msg) L)
    | none => apiError "LuawException constructed from a null pointer"

/-- `luaw_call<T>` (luaw.inl:554): the callable is on top of the stack, the
pushes of the arguments are `args`. -/
def luaw_call {α : Type} (E : Engine) (I : Interp) (luaw_to_ : Int → LuaM α)
    (args : List (LuaM Int)) : LuaM α := do
  args.forM (fun push => do let _ ← push)
  luaw_pcall E I args.length 1
  luaw_pop luaw_to_

/-- `luaw_call_global<T>` (luaw.inl:561). -/
def luaw_call_global {α : Type} (E : Engine) (I : Interp) (luaw_to_ : Int → LuaM α)
    (global : Text) (args : List (LuaM Int)) : LuaM α := do
  lua_getglobal I (c_str global)
  luaw_call E I luaw_to_ args

/-! ### iteration (luaw.inl:450-492)

A callback is a function of the host state it captures by reference: it
takes that state and returns the new one. -/

/-- The `for (int i = 1; i <= sz; ++i)` loop of `luaw_ipairs` (luaw.inl:456)
followed by the `lua_pop` after it; the first argument counts the iterations
still to run. -/
def luaw_ipairs_loop {σ : Type} (fn : Int → σ → LuaM σ) : Nat → Int → σ → LuaM σ
  | 0, _, s => do
    lua_pop 1
    return s
  | n + 1, i, s => do
    lua_rawgeti (-1) i
    let s ← fn i s
    lua_pop 1
    luaw_ipairs_loop fn n (i + 1) s

/-- `luaw_ipairs` (luaw.inl:450). -/
def luaw_ipairs {σ : Type} (index : Int) (fn : Int → σ → LuaM σ) (s : σ) : LuaM σ := do
  let sz ← luaw_len index
  lua_pushvalue index
  luaw_ipairs_loop fn sz.toNat 1 s

/-- The `while (lua_next(L, -2) != 0)` loop of `luaw_spairs` (luaw.inl:471)
followed by the `lua_pop` after it.  The first argument bounds the number of
`lua_next` calls still allowed. -/
def luaw_spairs_loop {σ : Type} (E : Engine) (fn : Text → σ → LuaM σ) : Nat → σ → LuaM σ
  | 0, _ => apiError "table modified during its traversal"
  | fuel + 1, s => do
    if (← lua_next (-2)) ≠ 0 then
      let s ← (do
        if (← lua_type (-2)) = .TSTRING then
          fn (← luaw_to (luaw_to__string E) (-2)) s
        else
          pure s)
      lua_pop 1
      luaw_spairs_loop E fn fuel s
    else
      lua_pop 1
      return s

/-- The number of `lua_next` calls a traversal of the table at `index`
makes at most: one per slot and a last one.  More are only needed when the
callback adds keys, which the reference manual leaves undefined. -/
def traversalBound (index : Int) (L : LuaState) : Nat :=
  match index2value L index with
  | some (.table r) => (L.tableAt r).length + 1
  | _ => 1

/-- `luaw_spairs` (luaw.inl:465). -/
def luaw_spairs {σ : Type} (E : Engine) (index : Int) (fn : Text → σ → LuaM σ) (s : σ) :
    LuaM σ := fun L =>
  (do
    lua_pushvalue index
    lua_pushnil
    luaw_spairs_loop E fn (traversalBound index L) s) L

/-- The `while (lua_next(L, -2) != 0)` loop of `luaw_pairs` (luaw.inl:486)
followed by the `lua_pop` after it. -/
def luaw_pairs_loop {σ : Type} (fn : σ → LuaM σ) : Nat → σ → LuaM σ
  | 0, _ => apiError "table modified during its traversal"
  | fuel + 1, s => do
    if (← lua_next (-2)) ≠ 0 then
      let s ← fn s
      lua_pop 1
      luaw_pairs_loop fn fuel s
    else
      lua_pop 1
      return s

/-- `luaw_pairs` (luaw.inl:480). -/
def luaw_pairs {σ : Type} (index : Int) (fn : σ → LuaM σ) (s : σ) : LuaM σ := fun L =>
  (do
    lua_pushvalue index
    lua_pushnil
    luaw_pairs_loop fn (traversalBound index L) s) L

/-! ### dump (luaw.cc:95-171, 315-321) -/

/-- `luaw_to_string` (luaw.cc:315). -/
def luaw_to_string (E : Engine) (I : Interp) (index : Int) : LuaM Text := do
  lua_getglobal I "tostring".toList
  lua_pushvalue (index - 1)
  luaw_pcall E I 1 1
  luaw_pop (luaw_to__string E)

/-- `luaw_dump_table` (luaw.cc:95); `luaw_dump` is the function it calls back
for the entries.  The callbacks capture `ss`, `found` and
`has_non_numeric_key`. -/
def luaw_dump_table (E : Engine) (I : Interp)
    (luaw_dump : Int → Bool → Nat → Nat → LuaM Text) (index : Int) (pretty_print : Bool)
    (max_depth current_depth : Nat) : LuaM Text := do
  let value ← luaw_to_string E I index
  if !("table: ".toList).isPrefixOf value then
    return value
  if current_depth > max_depth then
    return "\x7b...\x7d".toList
  let pfx : Text :=
    if pretty_print && current_depth > 0 then List.replicate (current_depth * 2) ' ' else []
  let (ss, found) ← luaw_ipairs index (fun _ (st : Text × Bool) => do
    let d ← luaw_dump (-1) pretty_print max_depth current_depth
    return (st.1 ++ d ++ ", ".toList, true)) (([] : Text), false)
  let (ss, found, has_non_numeric_key) ←
    luaw_spairs E index (fun key (st : Text × Bool × Bool) => do
      let d ← luaw_dump (-1) pretty_print max_depth current_depth
      let ss := st.1 ++ pfx ++ key ++ "=".toList ++ d ++ ", ".toList
      let ss := if pretty_print then ss ++ [Char.ofNat 10] else ss
      return (ss, true, true)) (ss, found, false)
  if found then
    let s := ss
    if pretty_print && has_non_numeric_key then
      return [Char.ofNat 123, Char.ofNat 10] ++ substr0 s (sizeSub s.length 2)
        ++ [Char.ofNat 10] ++ substr0 pfx (sizeSub pfx.length 2) ++ [Char.ofNat 125]
    else
      return [Char.ofNat 123, ' '] ++ substr0 s (sizeSub s.length 2) ++ [' ', Char.ofNat 125]
  else
    return [Char.ofNat 123, Char.ofNat 125]

/-- `luaw_dump` (luaw.cc:137) with a bound on the depth of its recursion as
first argument.  Numbers are exact rationals in the model: the comparison of
the double `diff` with the double nearest to 0.000001 is the comparison of a
rational with 1/1000000. -/
def luaw_dump_rec (E : Engine) (I : Interp) (S : StdLib) :
    Nat → Int → Bool → Nat → Nat → LuaM Text
  | 0, _, _, _, _ => apiError "recursion bound of luaw_dump reached"
  | fuel + 1, index, pretty_print, max_depth, current_depth => do
    match (← lua_type index) with
    | .TNIL => return "nil".toList
    | .TNUMBER =>
      let n ← lua_tonumber E index
      let diff := |n - (roundHalfAway n : ℚ)|
      if diff < 1 / 1000000 then
        match truncToInt n with
        | some i => return (toString i).toList
        | none => apiError "conversion of a double outside the range of int"
      else
        return S.to_string_double n
    | .TBOOLEAN => return (if (← lua_toboolean index) then "true".toList else "false".toList)
    | .TSTRING =>
      match (← lua_tostring E index) with
      | some str => return [Char.ofNat 34] ++ c_str str ++ [Char.ofNat 34]
      | none => apiError "std::string appended from a null pointer"
    | .TTABLE =>
      luaw_dump_table E I (luaw_dump_rec E I S fuel) index pretty_print max_depth
        (current_depth + 1)
    | .TFUNCTION => return "[&]".toList
    | .TUSERDATA => return "[# ".toList ++ (← luaw_to_string E I index) ++ "]".toList
    | .TTHREAD => return "[thread]".toList
    | .TLIGHTUSERDATA =>
      return "(*".toList ++ S.pointer (← lua_touserdata index) ++ ")".toList
    | .TNONE => luaL_error "Invalid lua type".toList

/-- `luaw_dump` (luaw.cc:137).  A call at `current_depth` recurses through at
most `max_depth - current_depth` levels of tables before `luaw_dump_table`
cuts off, which bounds the recursion. -/
def luaw_dump (E : Engine) (I : Interp) (S : StdLib) (index : Int) (pretty_print : Bool)
    (max_depth current_depth : Nat) : LuaM Text :=
  luaw_dump_rec E I S (max_depth - current_depth + 1) index pretty_print max_depth current_depth

/-! ### What the specification says of a qualified path -/

/-- Following the segments of a path from a value, as the specification words
it: the current value must be a table at every segment, and the value of the
last segment (possibly nil) is the result.  A segment names the field the
engine is asked for, its C string. -/
def resolvePath (H : List LuaTable) : LuaVal → List Text → Option LuaVal
  | cur, [] => some cur
  | .table r, s :: rest => resolvePath H (rawget (heapGet H r) (.string (c_str s))) rest
  | _, _ :: _ => none

/-- The path is present: every non-terminal segment resolves to a table and
the terminal segment to a value that is not nil. -/
def pathPresent (H : List LuaTable) (cur : LuaVal) (segs : List Text) : Bool :=
  match resolvePath H cur segs with
  | some v => v ≠ .nil
  | none => false

/-- The outcome the specification assigns to a required read of a path from
`cur`, the stack being `orig` before the call. -/
def getfieldOutcome (H : List LuaTable) (orig : List LuaVal) (field : Text) (cur : LuaVal)
    (segs : List Text) : Except LuaError (Unit × LuaState) :=
  match resolvePath H cur segs with
  | some v =>
    if v = .nil ∧ segs ≠ [] then .error (.runtime (fieldNotFound field) { stack := orig, heap := H })
    else .ok ((), { stack := v :: orig, heap := H })
  | none => .error (.runtime (fieldNotFound field) { stack := orig, heap := H })

/-- A dot-separated path, as the specification writes it: the segments in
order with a dot between two of them. -/
def dottedPath : List Text → Text
  | [] => []
  | [s] => s
  | s :: t => s ++ '.' :: dottedPath t

/-! ### Example states -/

/-- The table `{a = {b = {c = 5}}}` alone on the stack. -/
def nestedExample : LuaState where
  stack := [.table 0]
  heap := [[(.string "a".toList, .table 1)], [(.string "b".toList, .table 2)],
    [(.string "c".toList, .integer 5)]]

/-- The table `{x = 1}` alone on the stack. -/
def flatExample : LuaState where
  stack := [.table 0]
  heap := [[(.string "x".toList, .integer 1)]]

/-! ### Vocabulary of the round-trip statements -/

/-- Store the values `xs` at the consecutive integer keys `i`, `i+1`, ... -/
def storeAll (t : LuaTable) (i : Int) : List LuaVal → LuaTable
  | [] => t
  | x :: xs => storeAll (rawset t (.integer i) x) (i + 1) xs

/-- The heap `Hn` extends `H`: it is at least as long and every table of `H`
is unchanged. -/
def HeapExtends (H Hn : List LuaTable) : Prop :=
  H.length ≤ Hn.length ∧ ∀ r, r < H.length → heapGet Hn r = heapGet H r

/-- The heap `H'` agrees with `Hc` on the references `lo ≤ r < |Hc|`. -/
def AgreeFrom (lo : Nat) (Hc H' : List LuaTable) : Prop :=
  ∀ r, lo ≤ r → r < Hc.length → heapGet H' r = heapGet Hc r

/-- On a top slot holding `x`, the operation `act` returns `res` and leaves
the state as it found it, whatever lies below the slot and whatever the heap
holds outside the references `lo ≤ r < |Hc|`. -/
def StableAt {β : Type} (act : Int → LuaM β) (res : β) (x : LuaVal) (Hc : List LuaTable)
    (lo : Nat) : Prop :=
  ∀ (st : List LuaVal) (H' : List LuaTable), AgreeFrom lo Hc H' →
    act (-1) { stack := x :: st, heap := H' } = .ok (res, { stack := x :: st, heap := H' })

/-- The push `push` writes exactly one slot, holding a value that is not
nil, touches no existing table, and on that slot the operation `act` yields
`res` (as long as the tables the push created are not modified). -/
def Pushes {β : Type} (push : LuaM Int) (act : Int → LuaM β) (res : β) : Prop :=
  ∀ (st : List LuaVal) (H : List LuaTable), ∃ x Hn,
    x ≠ .nil ∧ push { stack := st, heap := H } = .ok (1, { stack := x :: st, heap := Hn }) ∧
    HeapExtends H Hn ∧ StableAt act res x Hn H.length

/-- The state with one more slot on top. -/
def LuaState.push (L : LuaState) (v : LuaVal) : LuaState :=
  { L with stack := v :: L.stack }

/-- The tables `{x = 1}` (index 1) and `{x = 2}` (index 2, the top). -/
def twoTablesExample : LuaState where
  stack := [.table 1, .table 0]
  heap := [[(.string "x".toList, .integer 1)], [(.string "x".toList, .integer 2)]]

/-- The table `{a = 5}` with the value 7 to store on top of it. -/
def numberFieldExample : LuaState where
  stack := [.integer 7, .table 0]
  heap := [[(.string "a".toList, .integer 5)]]

/-- Text of `tostring(v)` in the example interpreter. -/
def demoToString : LuaVal → Text
  | .nil => "nil".toList
  | .boolean b => if b then "true".toList else "false".toList
  | .integer n => (toString n).toList
  | .number _ => "0.0".toList
  | .string s => s
  | .table r => "table: ".toList ++ (toString r).toList
  | .function id => "function: ".toList ++ (toString id).toList
  | .userdata id => "userdata: ".toList ++ (toString id).toList
  | .lightuserdata p => "userdata: ".toList ++ (toString p).toList
  | .thread id => "thread: ".toList ++ (toString id).toList

/-- An example interpreter: its globals table is the table 0 of the heap;
function 1 is `tostring`, function 2 is `debug.traceback` (it appends a
traceback to a text message), function 3 raises the error `boom`. -/
def demoInterp : Interp where
  globals := 0
  call := fun f args H =>
    match f, args with
    | .function 1, v :: _ => .returns [.string (demoToString v)] H
    | .function 2, .string msg :: _ => .returns [.string (msg ++ " (traceback)".toList)] H
    | .function 2, v :: _ => .returns [v] H
    | .function 3, _ => .raises (.string "boom".toList) H
    | _, _ => .raises (.string "attempt to call a value".toList) H

/-- The heap of the globals of `demoInterp`: the globals table with `tostring`,
`debug` and `fail`, and the table `debug`. -/
def demoGlobals : List LuaTable :=
  [[(.string "tostring".toList, .function 1), (.string "debug".toList, .table 1),
    (.string "fail".toList, .function 3)],
   [(.string "traceback".toList, .function 2)]]

/-- A table as the API builds them: no key twice, no nil key. -/
def WellFormedTable (t : LuaTable) : Prop :=
  (t.map Prod.fst).Nodup ∧ ∀ e ∈ t, e.1 ≠ .nil

/-- The callback run `run` keeps the balance at an entry: started on the stack
`v :: below` (the value of the entry above the slots `below`) and the heap
`H`, if it returns then `below` is as it was with exactly one slot above it,
and the host state and heap it leaves are in `Inv`.  Nothing is asked of a
run that raises. -/
def KeepsBalance {σ : Type} (Inv : σ → List LuaTable → Prop) (run : LuaM σ) (v : LuaVal)
    (below : List LuaVal) (H : List LuaTable) : Prop :=
  ∀ s' L', run { stack := v :: below, heap := H } = .ok (s', L') →
    (∃ x, L'.stack = x :: below) ∧ Inv s' L'.heap

/-- The traversal ends balanced: it returns with the stack `orig`, and the
host state and heap it leaves are in `Inv`. -/
def EndsBalanced {σ : Type} (Inv : σ → List LuaTable → Prop) (orig : List LuaVal)
    (res : Except LuaError (σ × LuaState)) : Prop :=
  ∃ s' L', res = .ok (s', L') ∧ L'.stack = orig ∧ Inv s' L'.heap

/-- The traversal ends with the error of its callback: the callback run
`run`, started on the stack `v :: below` and the heap `H`, raised an error,
and that error is what the traversal ends with. -/
def EndsRaised {σ : Type} (run : LuaM σ) (v : LuaVal) (below : List LuaVal) (H : List LuaTable)
    (res : Except LuaError (σ × LuaState)) : Prop :=
  ∃ e, run { stack := v :: below, heap := H } = .error e ∧ res = .error e

/-- The table `{true, k = false}` alone on the stack. -/
def mixedExample : LuaState where
  stack := [.table 0]
  heap := [[(.integer 1, .boolean true), (.string "k".toList, .boolean false)]]

/-- The heap of `mixedExample` after the field `k` of its table is assigned
true. -/
def mixedAssigned : List LuaTable :=
  [[(.integer 1, .boolean true), (.string "k".toList, .boolean true)]]

/-- A callback of `luaw_pairs` that counts the entries and, at each of them,
assigns true to the field `k` of the table being traversed (the duplicate at
index -3, which is index -4 once the value is pushed). -/
def countAndAssign (n : Nat) : LuaM Nat := do
  lua_pushboolean true
  lua_setfield (-4) "k".toList
  return n + 1

/-- A callback of `luaw_pairs` that counts the entries and, at each of them,
clears the field `k` of the table being traversed. -/
def countAndClear (n : Nat) : LuaM Nat := do
  lua_pushnil
  lua_setfield (-4) "k".toList
  return n + 1

/-- The table `{10, 20}` alone on the stack. -/
def numbersExample : LuaState where
  stack := [.table 0]
  heap := [[(.integer 1, .integer 10), (.integer 2, .integer 20)]]

/-- A callback of `luaw_ipairs` that reads the entry as text, which turns the
number in the slot into a string, and appends it to the text read so far. -/
def appendText (E : Engine) (_ : Int) (acc : Text) : LuaM Text := do
  let t ← luaw_to (luaw_to__string E) (-1)
  return acc ++ t

/-- An example standard library: every double prints as `0.000000`, a pointer
as its number. -/
def demoStd : StdLib where
  to_string_double := fun _ => "0.000000".toList
  pointer := fun p => (toString p).toList

/-- The value `true` at index 1 and the table `{false}` at index 2 (the top),
over the globals of `demoInterp`. -/
def dumpPositiveExample : LuaState where
  stack := [.table 2, .boolean true]
  heap := demoGlobals ++ [[(.integer 1, .boolean false)]]

/-- The table `{true, {false}}` alone on the stack, over the globals of
`demoInterp`. -/
def dumpNestedExample : LuaState where
  stack := [.table 2]
  heap := demoGlobals ++
    [[(.integer 1, .boolean true), (.integer 2, .table 3)], [(.integer 1, .boolean false)]]

/-- The table `t = {true, t, k = t}`, which contains itself twice, alone on
the stack, over the globals of `demoInterp`. -/
def dumpCyclicExample : LuaState where
  stack := [.table 2]
  heap := demoGlobals ++
    [[(.integer 1, .boolean true), (.integer 2, .table 2), (.string "k".toList, .table 2)]]

/-- The global `tostring` of the interpreter gives a text for every value and
leaves the heap `H` as it is. -/
def ToStringQuiet (I : Interp) (H : List LuaTable) : Prop :=
  ∀ v, ∃ t, callValue I (rawget (heapGet H I.globals) (.string "tostring".toList)) [v] H
    = .returns [.string t] H

/-- A number `luaw_dump` can print: when it is within 1e-6 of an integer, its
conversion to `int` is defined. -/
def DumpableNumber (q : ℚ) : Prop :=
  |q - (roundHalfAway q : ℚ)| < 1 / 1000000 → (truncToInt q).isSome = true

/-- A value that is not a number `luaw_dump` cannot print. -/
def DumpableValue : LuaVal → Prop
  | .integer n => DumpableNumber n
  | .number q => DumpableNumber q
  | _ => True

/-- A heap of well-formed tables whose values are all dumpable. -/
def DumpableHeap (H : List LuaTable) : Prop :=
  ∀ r, WellFormedTable (heapGet H r) ∧ ∀ e ∈ heapGet H r, DumpableValue e.2

/-- The computation returns from the state `L` and leaves it as it found it. -/
def Returns {α : Type} (m : LuaM α) (L : LuaState) : Prop := ∃ a, m L = .ok (a, L)

/-- An engine whose numerals are the decimal integers: the instance at which
closed statements are evaluated. -/
def decimalEngine : Engine where
  str2number := fun s => (String.mk s).toInt?.map LuaVal.integer
  number2str := fun v =>
    match v with
    | .integer n => (toString n).toList
    | _ => []

/-- Text free of the zero character: the text a C string can carry. -/
def NulFree (s : Text) : Prop := ∀ c ∈ s, c ≠ Char.ofNat 0

instance (s : Text) : Decidable (NulFree s) := by
  unfold NulFree; exact inferInstance

/-! ## Basic facts about the engine model -/

@[simp] theorem LuaM.pure_run {α : Type} (a : α) (L : LuaState) :
    (pure a : LuaM α) L = .ok (a, L) := rfl

@[simp] theorem LuaM.bind_run {α β : Type} (m : LuaM α) (f : α → LuaM β) (L : LuaState) :
    (m >>= f) L = match m L with
      | .ok (a, L') => f a L'
      | .error e => .error e := rfl

@[simp] theorem LuaM.map_run {α β : Type} (m : LuaM α) (f : α → β) (L : LuaState) :
    (f <$> m) L = match m L with
      | .ok (a, L') => .ok (f a, L')
      | .error e => .error e := by
  show (m >>= fun a => pure (f a)) L = _
  simp only [LuaM.bind_run]
  cases m L with
  | error e => rfl
  | ok p => rfl

@[simp] theorem index2pos_neg_one (v : LuaVal) (st : List LuaVal) (H : List LuaTable) :
    index2pos { stack := v :: st, heap := H } (-1) = some 0 := by
  simp [index2pos]

@[simp] theorem index2value_neg_one (v : LuaVal) (st : List LuaVal) (H : List LuaTable) :
    index2value { stack := v :: st, heap := H } (-1) = some v := by
  simp [index2value]

@[simp] theorem lua_pop_one (v : LuaVal) (st : List LuaVal) (H : List LuaTable) :
    lua_pop 1 { stack := v :: st, heap := H } = .ok ((), { stack := st, heap := H }) := by
  simp [lua_pop, lua_settop]

theorem wrapInt64_cast (T : IntegerType) (n : Int) (h : T.inRange n) :
    T.cast (wrapInt64 n) = n := by
  obtain ⟨w, s⟩ := T
  cases w <;> cases s <;>
    simp only [IntegerType.inRange, IntegerType.cast, IntWidth.modulus, wrapInt64] at h ⊢ <;>
    simp at h ⊢ <;> omega

/-! ## Integer round trip -/

/-- C2: for every host integral type `T` and every value `n` of `T`,
`luaw_push(n)` followed by `luaw_pop<T>` returns `n` and leaves the engine
state (stack and tables) exactly as it was before the push. -/
theorem luaw_integer_push_pop (E : Engine) (T : IntegerType) (n : Int) (h : T.inRange n)
    (L : LuaState) :
    (luaw_push_IntegerType n >>= fun _ => luaw_pop (luaw_to__IntegerType E T)) L
      = .ok (n, L) := by
  obtain ⟨st, H⟩ := L
  simp [luaw_push_IntegerType, luaw_pop, luaw_to, luaw_to__IntegerType, lua_pushinteger,
    lua_tointeger, toIntegerVal, tonumber?, numToInteger?, wrapInt64_cast T n h]

/-- Witness of `luaw_integer_push_pop`: the 8-bit unsigned value 200 on an
empty stack. -/
theorem luaw_integer_push_pop_witness :
    (luaw_push_IntegerType 200 >>= fun _ =>
        luaw_pop (luaw_to__IntegerType decimalEngine ⟨.w8, false⟩)) { stack := [], heap := [] }
      = .ok (200, { stack := [], heap := [] }) :=
  luaw_integer_push_pop decimalEngine ⟨.w8, false⟩ 200 (by decide) { stack := [], heap := [] }

/-! ## Text round trip -/

theorem c_str_of_nulFree (s : Text) (h : NulFree s) : c_str s = s := by
  unfold c_str
  rw [List.takeWhile_eq_self_iff]
  intro c hc
  simpa using h c hc

theorem c_str_idem (s : Text) : c_str (c_str s) = c_str s := by
  unfold c_str
  rw [List.takeWhile_eq_self_iff]
  intro c hc
  exact List.mem_takeWhile_imp (p := fun c => decide (c ≠ Char.ofNat 0)) hc

/-- What `luaw_push` followed by `luaw_to<std::string>` on the pushed slot does
for any text: the slot holds, and the conversion returns, the characters of
`s` before its first zero character. -/
theorem luaw_string_push_to (E : Engine) (s : Text) (L : LuaState) :
    (luaw_push_string s >>= fun _ => luaw_to (luaw_to__string E) (-1)) L
      = .ok (c_str s, { L with stack := .string (c_str s) :: L.stack }) := by
  obtain ⟨st, H⟩ := L
  simp [luaw_push_string, luaw_to, luaw_to__string, lua_pushstring, lua_tostring, c_str_idem]

/-- C3, refuted as stated: pushing the three-character text `a`, zero, `b`
and reading the slot back returns the one-character text `a`. -/
theorem luaw_string_zero_truncates :
    (luaw_push_string [Char.ofNat 97, Char.ofNat 0, Char.ofNat 98] >>= fun _ =>
        luaw_to (luaw_to__string decimalEngine) (-1)) { stack := [], heap := [] }
      = .ok ([Char.ofNat 97],
          { stack := [.string [Char.ofNat 97]], heap := [] })
    ∧ [Char.ofNat 97] ≠ [Char.ofNat 97, Char.ofNat 0, Char.ofNat 98] := by
  refine ⟨?_, by decide⟩
  rw [luaw_string_push_to]
  have h : c_str [Char.ofNat 97, Char.ofNat 0, Char.ofNat 98] = [Char.ofNat 97] := by decide
  rw [h]

/-- C3, amended: for every host text `s` that contains no zero character,
`luaw_push(s)` followed by `luaw_to<std::string>` on the pushed slot returns
`s` itself (same characters, same length), the slot holding `s`. -/
theorem luaw_string_round_trip (E : Engine) (s : Text) (hs : NulFree s) (L : LuaState) :
    (luaw_push_string s >>= fun _ => luaw_to (luaw_to__string E) (-1)) L
      = .ok (s, { L with stack := .string s :: L.stack }) := by
  rw [luaw_string_push_to, c_str_of_nulFree s hs]

/-- Witness of `luaw_string_round_trip` at the text `ab`. -/
theorem luaw_string_round_trip_witness :
    (luaw_push_string "ab".toList >>= fun _ =>
        luaw_to (luaw_to__string decimalEngine) (-1)) { stack := [], heap := [] }
      = .ok ("ab".toList, { stack := [.string "ab".toList], heap := [] }) :=
  luaw_string_round_trip decimalEngine "ab".toList (by decide) { stack := [], heap := [] }

/-! ## Integral type test -/

/-- C4, the code at the failing input: on every valid slot holding a float
`q` (any `q`, so also 3/2), and on every slot holding an integer,
`luaw_is<IntegerType>` answers true and leaves the state alone: the value is
compared with itself. -/
theorem luaw_is_IntegerType_number (E : Engine) (L : LuaState) (index : Int) (v : LuaVal)
    (hv : index2value L index = some v) (hn : v.type = .TNUMBER) :
    luaw_is_IntegerType E index L = .ok (true, L) := by
  cases v <;> simp [LuaVal.type] at hn <;>
    simp [luaw_is_IntegerType, lua_isnumber, lua_tointeger, hv, tonumber?]

/-- Witness of `luaw_is_IntegerType_number`: a slot holding 3/2. -/
theorem luaw_is_IntegerType_number_witness :
    luaw_is_IntegerType decimalEngine (-1) { stack := [.number (3 / 2)], heap := [] }
      = .ok (true, { stack := [.number (3 / 2)], heap := [] }) :=
  luaw_is_IntegerType_number decimalEngine _ (-1) (.number (3 / 2)) (by simp) rfl

/-! ## Field accessors -/


theorem type_eq_TNIL_iff (v : LuaVal) : v.type = .TNIL ↔ v = .nil := by
  cases v <;> simp [LuaVal.type]

theorem type_eq_TTABLE_iff (v : LuaVal) : v.type = .TTABLE ↔ ∃ r, v = .table r := by
  cases v <;> simp [LuaVal.type]

theorem lua_settop_restore (pre orig : List LuaVal) (H : List LuaTable) :
    lua_settop (orig.length : Int) { stack := pre ++ orig, heap := H }
      = .ok ((), { stack := orig, heap := H }) := by
  simp [lua_settop]

@[simp] theorem lua_type_top (v : LuaVal) (st : List LuaVal) (H : List LuaTable) :
    lua_type (-1) { stack := v :: st, heap := H } = .ok (v.type, { stack := v :: st, heap := H }) := by
  simp [lua_type]

@[simp] theorem lua_getfield_top (r : Nat) (k : Text) (st : List LuaVal) (H : List LuaTable) :
    lua_getfield (-1) k { stack := .table r :: st, heap := H }
      = .ok ((), { stack := rawget (heapGet H r) (.string k) :: .table r :: st, heap := H }) := by
  simp [lua_getfield, LuaState.tableAt]

@[simp] theorem pathPresent_nil (H : List LuaTable) (v : LuaVal) :
    pathPresent H v [] = !decide (v = .nil) := by
  simp [pathPresent, resolvePath]

@[simp] theorem pathPresent_table (H : List LuaTable) (r : Nat) (s : Text) (rest : List Text) :
    pathPresent H (.table r) (s :: rest)
      = pathPresent H (rawget (heapGet H r) (.string (c_str s))) rest := rfl

theorem pathPresent_not_table (H : List LuaTable) (v : LuaVal) (s : Text) (rest : List Text)
    (h : v.type ≠ .TTABLE) : pathPresent H v (s :: rest) = false := by
  cases v <;> simp [LuaVal.type] at h <;> simp [pathPresent, resolvePath]

theorem luaw_hasfield_loop_spec (H : List LuaTable) (orig : List LuaVal) :
    ∀ (segs : List Text) (r : Nat) (pre : List LuaVal),
      luaw_hasfield_loop (orig.length : Int) segs { stack := .table r :: (pre ++ orig), heap := H }
        = .ok (pathPresent H (.table r) segs, { stack := orig, heap := H }) := by
  intro segs
  induction segs with
  | nil =>
    intro r pre
    have h := lua_settop_restore (.table r :: pre) orig H
    simp only [List.cons_append] at h
    simp [luaw_hasfield_loop, h, pathPresent, resolvePath]
  | cons s rest ih =>
    intro r pre
    simp only [luaw_hasfield_loop, LuaM.bind_run, lua_getfield_top, lua_type_top]
    generalize hv : rawget (heapGet H r) (.string (c_str s)) = v1
    cases rest with
    | nil =>
      have h := lua_settop_restore (v1 :: .table r :: pre) orig H
      simp only [List.cons_append] at h
      by_cases hn : v1 = .nil
      · subst hn
        simp [LuaVal.type, h, hv]
      · have ht : v1.type ≠ .TNIL := fun e => hn ((type_eq_TNIL_iff v1).1 e)
        simp [ht, luaw_hasfield_loop, h, hv, hn]
    | cons s2 rest2 =>
      have h := lua_settop_restore (v1 :: .table r :: pre) orig H
      simp only [List.cons_append] at h
      cases v1 with
      | table r1 =>
        have := ih r1 (.table r :: pre)
        simp only [List.cons_append] at this
        simp [LuaVal.type, this, hv]
      | _ => simp [LuaVal.type, h, hv, pathPresent_not_table]

theorem lua_pop_append (pre rest : List LuaVal) (H : List LuaTable) :
    lua_pop (pre.length : Int) { stack := pre ++ rest, heap := H }
      = .ok ((), { stack := rest, heap := H }) := by
  have h4 : ¬ (0 ≤ -(pre.length : Int) - 1) := by omega
  have h5 : (-(-(pre.length : Int) - 1)).toNat = pre.length + 1 := by omega
  have h6 : pre.length + 1 ≤ (pre ++ rest).length + 1 := by simp
  simp only [lua_pop, lua_settop, if_neg h4, h5, if_pos h6]
  simp

theorem lua_insert_pop (cur : LuaVal) (pre orig : List LuaVal) (H : List LuaTable) :
    (lua_insert ((orig.length : Int) + 1) >>= fun _ => lua_pop (pre.length : Int))
        { stack := cur :: (pre ++ orig), heap := H }
      = .ok ((), { stack := cur :: orig, heap := H }) := by
  have hp : index2pos { stack := cur :: (pre ++ orig), heap := H } ((orig.length : Int) + 1)
      = some pre.length := by
    simp only [index2pos]
    have h1 : ¬ ((orig.length : Int) + 1 < 0) := by omega
    have h2 : 0 < (orig.length : Int) + 1 := by omega
    have h3 : ((orig.length : Int) + 1).toNat = orig.length + 1 := by omega
    simp [h1, h2, h3]
  simp only [LuaM.bind_run, lua_insert, hp]
  have h := lua_pop_append pre (cur :: orig) H
  simpa using h

theorem luaw_getfield_loop_spec (H : List LuaTable) (orig : List LuaVal) (field : Text) :
    ∀ (segs : List Text) (cur : LuaVal) (pre : List LuaVal),
      (segs ≠ [] → cur.type = .TTABLE) →
      luaw_getfield_loop field (orig.length : Int) segs (pre.length : Int)
          { stack := cur :: (pre ++ orig), heap := H }
        = getfieldOutcome H orig field cur segs := by
  intro segs
  induction segs with
  | nil =>
    intro cur pre _
    have h := lua_insert_pop cur pre orig H
    simp only [LuaM.bind_run] at h
    simp only [luaw_getfield_loop, LuaM.bind_run, h]
    simp [getfieldOutcome, resolvePath]
  | cons s rest ih =>
    intro cur pre hc
    obtain ⟨r, rfl⟩ := (type_eq_TTABLE_iff cur).1 (hc (by simp))
    simp only [luaw_getfield_loop, LuaM.bind_run, lua_getfield_top, lua_type_top]
    generalize hv : rawget (heapGet H r) (.string (c_str s)) = v1
    have h := lua_settop_restore (v1 :: .table r :: pre) orig H
    simp only [List.cons_append] at h
    have hstep := ih v1 (.table r :: pre)
    simp only [List.cons_append, List.length_cons, Nat.cast_add, Nat.cast_one] at hstep
    cases rest with
    | nil =>
      by_cases hn : v1 = .nil
      · subst hn
        simp [LuaVal.type, h, hv, getfieldOutcome, resolvePath, luaL_error]
      · have ht : v1.type ≠ .TNIL := fun e => hn ((type_eq_TNIL_iff v1).1 e)
        simp [ht, hstep, hv, getfieldOutcome, resolvePath, hn]
    | cons s2 rest2 =>
      cases v1 with
      | table r1 =>
        simp [LuaVal.type, hstep, hv, getfieldOutcome, resolvePath]
      | _ => simp [LuaVal.type, h, hv, getfieldOutcome, resolvePath, luaL_error]

/-- The stream is at its end exactly when no segment is left: this is the
test `iss.peek() != EOF` of the loops. -/
theorem getlines_eq_nil_iff (s : Text) : getlines s = [] ↔ s = [] := by
  cases s with
  | nil => simp [getlines]
  | cons c cs =>
    by_cases hc : c = '.'
    · simp [getlines, hc]
    · cases h : getlines cs <;> simp [getlines, hc, h]

/-- The segment list is what repeated `std::getline` calls produce. -/
theorem getlines_eq_getline (s : Text) :
    getlines s = match getline s with
      | none => []
      | some (seg, rest) => seg :: getlines rest := by
  induction s with
  | nil => rfl
  | cons c cs ih =>
    by_cases hc : c = '.'
    · subst hc
      simp [getlines, getline]
    · cases cs with
      | nil => simp [getlines, getline, hc]
      | cons d ds =>
        rw [getlines, if_neg hc, ih]
        simp [getline, hc]

theorem luaw_getfield_qualified_run (L : LuaState) (i : Int) (r : Nat) (path : Text)
    (hi : index2value L i = some (.table r)) :
    luaw_getfield i path true L
      = getfieldOutcome L.heap L.stack path (.table r) (getlines path) := by
  obtain ⟨st, H⟩ := L
  have h := luaw_getfield_loop_spec H st path (getlines path) (.table r) [] (fun _ => rfl)
  simp only [List.nil_append, List.length_nil, Nat.cast_zero] at h
  simp [luaw_getfield, lua_gettop, lua_pushvalue, hi, h]

/-- C7: when the slot at a valid index `i` holds a table from which the
segments of `path` resolve (a table at every non-terminal segment) to a value
`v` that is not nil, the qualified `luaw_getfield(L, i, path, true)` returns
with the stack of before the call plus one new top slot holding `v` (tables
untouched), and the typed `luaw_getfield<T>` returns whatever the conversion
of `T` makes of that slot, at the depth of before the call whenever the
conversion itself keeps the depth. -/
theorem luaw_getfield_qualified_found (L : LuaState) (i : Int) (r : Nat) (path : Text)
    (v : LuaVal) (hi : index2value L i = some (.table r))
    (hv : resolvePath L.heap (.table r) (getlines path) = some v) (hne : v ≠ .nil) :
    luaw_getfield i path true L = .ok ((), { L with stack := v :: L.stack }) ∧
    ∀ (α : Type) (to_ : Int → LuaM α) (x : α) (L' : LuaState),
      to_ (-1) { L with stack := v :: L.stack } = .ok (x, L') →
      L'.stack.length = L.stack.length + 1 →
      ∃ L'', luaw_getfield_T to_ i path true L = .ok (x, L'') ∧
        L''.stack.length = L.stack.length := by
  have hrun : luaw_getfield i path true L = .ok ((), { L with stack := v :: L.stack }) := by
    rw [luaw_getfield_qualified_run L i r path hi]
    simp [getfieldOutcome, hv, hne]
  refine ⟨hrun, ?_⟩
  intro α to_ x L' hto hlen
  obtain ⟨st', H'⟩ := L'
  cases st' with
  | nil => simp at hlen
  | cons top rest =>
    refine ⟨{ stack := rest, heap := H' }, ?_, ?_⟩
    · simp [luaw_getfield_T, hrun, luaw_to, hto]
    · simpa using hlen

/-- C8: when the slot at a valid index `i` holds a table and, following
`path`, some non-terminal segment resolves to a value that is not a table or
the terminal segment resolves to nil, the qualified `luaw_getfield` raises
the missing-field error; its message is built from the whole path (it
contains the path as handed to the formatter, which is the path itself when
the path has no zero character) and the state carried by the error, the one
at the raise, is exactly the state of before the call. -/
theorem luaw_getfield_qualified_missing (L : LuaState) (i : Int) (r : Nat) (path : Text)
    (hi : index2value L i = some (.table r))
    (hmiss : resolvePath L.heap (.table r) (getlines path) = none ∨
      resolvePath L.heap (.table r) (getlines path) = some .nil) :
    luaw_getfield i path true L = .error (.runtime (fieldNotFound path) L) ∧
    c_str path <:+: fieldNotFound path ∧
    (NulFree path → path <:+: fieldNotFound path) := by
  have hinfix : c_str path <:+: fieldNotFound path :=
    ⟨"Field ".toList ++ [Char.ofNat 39], [Char.ofNat 39] ++ " not found.".toList, by
      simp [fieldNotFound]⟩
  refine ⟨?_, hinfix, fun hn => by rw [c_str_of_nulFree path hn] at hinfix; exact hinfix⟩
  rw [luaw_getfield_qualified_run L i r path hi]
  rcases hmiss with h | h
  · simp [getfieldOutcome, h]
  · have hseg : getlines path ≠ [] := by
      intro e
      rw [e] at h
      simp [resolvePath] at h
    simp [getfieldOutcome, h, hseg]

theorem dottedPath_cons_cons (s s' : Text) (t : List Text) :
    dottedPath (s :: s' :: t) = s ++ '.' :: dottedPath (s' :: t) := rfl

theorem dottedPath_eq_intercalate (segs : List Text) :
    dottedPath segs = List.intercalate ['.'] segs := by
  induction segs with
  | nil => rfl
  | cons s t ih =>
    cases t with
    | nil => simp [dottedPath, List.intercalate]
    | cons s' t =>
      rw [dottedPath_cons_cons, ih]
      simp [List.intercalate, List.intersperse]

theorem getlines_segment (s : Text) (hs : s ≠ []) (hdot : '.' ∉ s) : getlines s = [s] := by
  induction s with
  | nil => exact absurd rfl hs
  | cons c cs ih =>
    have hc : c ≠ '.' := fun e => hdot (by simp [e])
    have hcs : '.' ∉ cs := fun h => hdot (by simp [h])
    cases cs with
    | nil => simp [getlines, hc]
    | cons d ds =>
      have h := ih (by simp) hcs
      rw [getlines, if_neg hc, h]

theorem getlines_append_dot (s rest : Text) (hdot : '.' ∉ s) :
    getlines (s ++ '.' :: rest) = s :: getlines rest := by
  induction s with
  | nil => simp [getlines]
  | cons c cs ih =>
    have hc : c ≠ '.' := fun e => hdot (by simp [e])
    have hcs : '.' ∉ cs := fun h => hdot (by simp [h])
    rw [List.cons_append, getlines, if_neg hc, ih hcs]

/-- The reading loop of the accessors splits a dot-separated path into its
segments, provided no segment holds a dot and the last one is not empty (a
final empty segment is not read: `std::getline` fails at the end of input). -/
theorem getlines_dottedPath (segs : List Text) (hdot : ∀ s ∈ segs, '.' ∉ s)
    (hlast : segs.getLast? ≠ some []) : getlines (dottedPath segs) = segs := by
  induction segs with
  | nil => rfl
  | cons s t ih =>
    cases t with
    | nil =>
      have hs : s ≠ [] := by
        intro e
        apply hlast
        simp [e]
      simpa [dottedPath] using getlines_segment s hs (hdot s (by simp))
    | cons s' t =>
      rw [dottedPath_cons_cons, getlines_append_dot s _ (hdot s (by simp)),
        ih (fun x hx => hdot x (by simp [hx])) (by simpa [List.getLast?_cons_cons] using hlast)]

theorem luaw_hasfield_qualified_run (L : LuaState) (i : Int) (r : Nat) (path : Text)
    (hi : index2value L i = some (.table r)) :
    luaw_hasfield i path true L = .ok (pathPresent L.heap (.table r) (getlines path), L) := by
  obtain ⟨st, H⟩ := L
  have h := luaw_hasfield_loop_spec H st (getlines path) r []
  simp only [List.nil_append] at h
  simp [luaw_hasfield, lua_gettop, lua_pushvalue, hi, h]

theorem pathPresent_iff (H : List LuaTable) (cur : LuaVal) (segs : List Text) :
    pathPresent H cur segs = true ↔ ∃ v, resolvePath H cur segs = some v ∧ v ≠ .nil := by
  unfold pathPresent
  cases resolvePath H cur segs with
  | none => simp
  | some v => simp

/-- C9: when the slot at a valid index `i` holds a table, for every
dot-separated path (segments without a dot joined by dots, the last one not
empty) the qualified `luaw_hasfield(L, i, path, true)` never raises, leaves
the state (stack and tables) exactly as it was, and answers true if and only
if the segments resolve, through a table at every non-terminal segment, to a
value that is not nil. -/
theorem luaw_hasfield_qualified (L : LuaState) (i : Int) (r : Nat) (segs : List Text)
    (hi : index2value L i = some (.table r)) (hdot : ∀ s ∈ segs, '.' ∉ s)
    (hlast : segs.getLast? ≠ some []) :
    ∃ b, luaw_hasfield i (dottedPath segs) true L = .ok (b, L) ∧
      (b = true ↔ ∃ v, resolvePath L.heap (.table r) segs = some v ∧ v ≠ .nil) := by
  refine ⟨pathPresent L.heap (.table r) segs, ?_, pathPresent_iff _ _ _⟩
  rw [luaw_hasfield_qualified_run L i r _ hi, getlines_dottedPath segs hdot hlast]

/-- C10, what the code does: when the slot at a valid index `i` holds a
table, the non-qualified `luaw_hasfield(L, i, f, false)` leaves the state as
it was and answers true exactly when the field is NIL, that is absent: the
answer is the result of `lua_isnil`, not its negation. -/
theorem luaw_hasfield_unqualified (L : LuaState) (i : Int) (r : Nat) (f : Text)
    (hi : index2value L i = some (.table r)) :
    luaw_hasfield i f false L
      = .ok (decide (rawget (L.tableAt r) (.string (c_str f)) = .nil), L) := by
  obtain ⟨st, H⟩ := L
  simp [luaw_hasfield, lua_getfield, hi, lua_isnil, type_eq_TNIL_iff]

/-- Witness of `luaw_getfield_qualified_found`: on `{a = {b = {c = 5}}}` the
path `a.b.c` pushes 5, and the typed read at a 32-bit signed integer returns 5
at the depth of before the call. -/
theorem luaw_getfield_qualified_found_witness :
    luaw_getfield 1 "a.b.c".toList true nestedExample
        = .ok ((), { nestedExample with stack := .integer 5 :: nestedExample.stack }) ∧
    ∃ L'', luaw_getfield_T (luaw_to__IntegerType decimalEngine ⟨.w32, true⟩) 1 "a.b.c".toList
        true nestedExample = .ok (5, L'') ∧
      L''.stack.length = nestedExample.stack.length :=
  have h := luaw_getfield_qualified_found nestedExample 1 0 "a.b.c".toList (.integer 5)
    (by decide) (by decide) (by decide)
  ⟨h.1, h.2 Int _ 5 _ rfl rfl⟩

/-- Witness of `luaw_getfield_qualified_missing`: on `{a = {b = {c = 5}}}` the
path `a.b.x` raises, the error naming `a.b.x`. -/
theorem luaw_getfield_qualified_missing_witness :
    luaw_getfield 1 "a.b.x".toList true nestedExample
        = .error (.runtime (fieldNotFound "a.b.x".toList) nestedExample) ∧
    c_str "a.b.x".toList <:+: fieldNotFound "a.b.x".toList ∧
    (NulFree "a.b.x".toList → "a.b.x".toList <:+: fieldNotFound "a.b.x".toList) :=
  luaw_getfield_qualified_missing nestedExample 1 0 "a.b.x".toList (by decide)
    (Or.inr (by decide))

/-- Witness of `luaw_hasfield_qualified` on `{a = {b = {c = 5}}}`: the answer
for `a.b.x` is false, on the state of before the call. -/
theorem luaw_hasfield_qualified_witness :
    luaw_hasfield 1 "a.b.x".toList true nestedExample = .ok (false, nestedExample) := by
  obtain ⟨b, hrun, hiff⟩ := luaw_hasfield_qualified nestedExample 1 0
    ["a".toList, "b".toList, "x".toList] (by decide) (by decide) (by decide)
  have hb : b = false := by
    cases b with
    | false => rfl
    | true =>
      obtain ⟨v, hv, hne⟩ := hiff.mp rfl
      have h : resolvePath nestedExample.heap (.table 0) ["a".toList, "b".toList, "x".toList]
          = some .nil := by decide
      rw [h] at hv
      exact absurd (Option.some.inj hv).symm hne
  rw [hb] at hrun
  exact hrun

/-- The qualified test on `{a = {b = {c = 5}}}`: true for `a.b.c`, `a.b` and
`a`; false for `a.b.x`, for `a.x.c` (nil on the way), for `a.b.c.d` (a number
on the way) and for `x`. -/
theorem luaw_hasfield_qualified_examples :
    luaw_hasfield 1 "a.b.c".toList true nestedExample = .ok (true, nestedExample) ∧
    luaw_hasfield 1 "a.b".toList true nestedExample = .ok (true, nestedExample) ∧
    luaw_hasfield 1 "a".toList true nestedExample = .ok (true, nestedExample) ∧
    luaw_hasfield 1 "a.b.x".toList true nestedExample = .ok (false, nestedExample) ∧
    luaw_hasfield 1 "a.x.c".toList true nestedExample = .ok (false, nestedExample) ∧
    luaw_hasfield 1 "a.b.c.d".toList true nestedExample = .ok (false, nestedExample) ∧
    luaw_hasfield 1 "x".toList true nestedExample = .ok (false, nestedExample) := by
  decide

/-- How the reading loop splits: at every dot, an empty segment between two
dots or before a first dot included; a final dot ends the last segment and
opens none. -/
theorem getlines_examples :
    getlines "a.b.c".toList = ["a".toList, "b".toList, "c".toList] ∧
    getlines "a".toList = ["a".toList] ∧
    getlines "a..b".toList = ["a".toList, [], "b".toList] ∧
    getlines ".a".toList = [[], "a".toList] ∧
    getlines "a.".toList = ["a".toList] ∧
    getlines [] = [] := by
  decide

/-- On `{x = 1}` and the dot-free path `x` the two modes of `luaw_hasfield`
disagree: the qualified test answers true, the non-qualified one false. -/
theorem luaw_hasfield_modes_disagree :
    luaw_hasfield 1 "x".toList true flatExample = .ok (true, flatExample) ∧
    luaw_hasfield 1 "x".toList false flatExample = .ok (false, flatExample) := by
  decide

/-- Witness of `luaw_hasfield_unqualified`, the failing input of C10: on
`{x = 1}` the non-qualified test of the present field `x` answers false. -/
theorem luaw_hasfield_unqualified_witness :
    luaw_hasfield 1 "x".toList false flatExample = .ok (false, flatExample) :=
  luaw_hasfield_unqualified flatExample 1 0 "x".toList (by decide)

/-! ## Tables and heaps -/

theorem rawget_eq_nil_of_not_key (t : LuaTable) (k : LuaVal)
    (h : t.any (fun e => e.1 = k) = false) : rawget t k = .nil := by
  induction t with
  | nil => rfl
  | cons e t ih =>
    obtain ⟨k', v'⟩ := e
    simp only [List.any_cons, Bool.or_eq_false_iff, decide_eq_false_iff_not] at h
    simp only [rawget, if_neg h.1]
    exact ih h.2

theorem rawget_rawupdate_self (t : LuaTable) (k v : LuaVal)
    (h : t.any (fun e => e.1 = k) = true) : rawget (rawupdate t k v) k = v := by
  induction t with
  | nil => simp at h
  | cons e t ih =>
    obtain ⟨k', v'⟩ := e
    by_cases hk : k' = k
    · simp [rawupdate, rawget, hk]
    · have ht : t.any (fun e => e.1 = k) = true := by simpa [hk] using h
      simp [rawupdate, rawget, hk, ih ht]

theorem rawget_rawupdate_ne (t : LuaTable) (k k' v : LuaVal) (h : k ≠ k') :
    rawget (rawupdate t k v) k' = rawget t k' := by
  induction t with
  | nil => rfl
  | cons e t ih =>
    obtain ⟨k2, v2⟩ := e
    by_cases h2 : k2 = k
    · subst h2
      simp [rawupdate, rawget, h]
    · simp [rawupdate, rawget, h2, ih]

theorem rawget_rawset_self (t : LuaTable) (k v : LuaVal) : rawget (rawset t k v) k = v := by
  unfold rawset
  by_cases hk : t.any (fun e => e.1 = k) = true
  · rw [if_pos hk]
    exact rawget_rawupdate_self t k v hk
  · rw [if_neg hk]
    by_cases hv : v = .nil
    · rw [if_pos hv, hv]
      exact rawget_eq_nil_of_not_key t k ((Bool.not_eq_true _).mp hk)
    · rw [if_neg hv]
      simp [rawget]

theorem rawget_rawset_ne (t : LuaTable) (k k' v : LuaVal) (h : k ≠ k') :
    rawget (rawset t k v) k' = rawget t k' := by
  unfold rawset
  by_cases hk : t.any (fun e => e.1 = k) = true
  · rw [if_pos hk]
    exact rawget_rawupdate_ne t k k' v h
  · rw [if_neg hk]
    by_cases hv : v = .nil
    · rw [if_pos hv]
    · rw [if_neg hv]
      simp [rawget, h]

theorem rawget_storeAll_below (xs : List LuaVal) :
    ∀ (t : LuaTable) (i j : Int), j < i →
      rawget (storeAll t i xs) (.integer j) = rawget t (.integer j) := by
  induction xs with
  | nil => intro t i j _; rfl
  | cons x xs ih =>
    intro t i j hj
    simp only [storeAll]
    rw [ih _ (i + 1) j (by omega)]
    apply rawget_rawset_ne
    intro e
    injection e with e
    omega

/-- Reading back what `storeAll` wrote. -/
theorem rawget_storeAll (xs : List LuaVal) :
    ∀ (t : LuaTable) (i : Int) (k : Nat) (hk : k < xs.length),
      rawget (storeAll t i xs) (.integer (i + k)) = xs[k] := by
  induction xs with
  | nil => intro t i k hk; simp at hk
  | cons x xs ih =>
    intro t i k hk
    cases k with
    | zero =>
      simp only [storeAll, Nat.cast_zero, add_zero, List.getElem_cons_zero]
      rw [rawget_storeAll_below xs _ (i + 1) i (by omega), rawget_rawset_self]
    | succ k =>
      have h := ih (rawset t (.integer i) x) (i + 1) k (by simpa using hk)
      simp only [storeAll, List.getElem_cons_succ]
      rw [← h]
      congr 2
      push_cast
      ring

theorem rawget_storeAll_above (xs : List LuaVal) :
    ∀ (t : LuaTable) (i j : Int), i + xs.length ≤ j →
      rawget (storeAll t i xs) (.integer j) = rawget t (.integer j) := by
  induction xs with
  | nil => intro t i j _; rfl
  | cons x xs ih =>
    intro t i j hj
    simp only [List.length_cons, Nat.cast_add, Nat.cast_one] at hj
    simp only [storeAll]
    rw [ih _ (i + 1) j (by omega)]
    apply rawget_rawset_ne
    intro e
    injection e with e
    omega

theorem mem_keys_of_rawget_ne_nil (t : LuaTable) (k : LuaVal) (h : rawget t k ≠ .nil) :
    k ∈ t.map Prod.fst := by
  induction t with
  | nil => simp [rawget] at h
  | cons e t ih =>
    obtain ⟨k', v⟩ := e
    by_cases hk : k' = k
    · simp [hk]
    · simp only [rawget, if_neg hk] at h
      simp [ih h]

/-- A table holding non-nil values at the keys 1..N has at least N entries. -/
theorem le_length_of_filled (t : LuaTable) (N : Nat)
    (h : ∀ k : Nat, k < N → rawget t (.integer ((k : Int) + 1)) ≠ .nil) : N ≤ t.length := by
  have hnd : ((List.range N).map (fun k : Nat => LuaVal.integer ((k : Int) + 1))).Nodup := by
    apply List.Nodup.map _ (List.nodup_range N)
    intro a b e
    simp only [LuaVal.integer.injEq] at e
    omega
  have hsub : (List.range N).map (fun k : Nat => LuaVal.integer ((k : Int) + 1))
      ⊆ t.map Prod.fst := by
    intro x hx
    simp only [List.mem_map, List.mem_range] at hx
    obtain ⟨k, hk, rfl⟩ := hx
    exact mem_keys_of_rawget_ne_nil t _ (h k hk)
  have := (List.subperm_of_subset hnd hsub).length_le
  simpa using this

theorem borderFrom_eq (t : LuaTable) (N : Nat)
    (hfull : ∀ k : Nat, k < N → rawget t (.integer ((k : Int) + 1)) ≠ .nil)
    (hend : rawget t (.integer ((N : Int) + 1)) = .nil) :
    ∀ (fuel n : Nat), n ≤ N → N ≤ n + fuel → borderFrom t fuel n = N := by
  intro fuel
  induction fuel with
  | zero => intro n h1 h2; simp only [borderFrom]; omega
  | succ fuel ih =>
    intro n h1 h2
    simp only [borderFrom]
    by_cases hn : n = N
    · subst hn
      simp [hend]
    · have hlt : n < N := by omega
      rw [if_neg (hfull n hlt)]
      exact ih (n + 1) (by omega) (by omega)

/-- The length of a table filled at 1..N and empty at N+1 is N. -/
theorem rawlen_eq (t : LuaTable) (N : Nat)
    (hfull : ∀ k : Nat, k < N → rawget t (.integer ((k : Int) + 1)) ≠ .nil)
    (hend : rawget t (.integer ((N : Int) + 1)) = .nil) : rawlen t = N :=
  borderFrom_eq t N hfull hend t.length 0 (Nat.zero_le N)
    (by have := le_length_of_filled t N hfull; omega)

/-- The length of the table written by storing non-nil values at 1, 2, ... -/
theorem rawlen_storeAll (xs : List LuaVal) (hxs : ∀ x ∈ xs, x ≠ .nil) :
    rawlen (storeAll [] 1 xs) = xs.length := by
  apply rawlen_eq
  · intro k hk
    have h := rawget_storeAll xs [] 1 k hk
    have e : ((k : Int) + 1) = 1 + (k : Int) := by ring
    rw [e, h]
    exact hxs _ (List.getElem_mem _)
  · rw [rawget_storeAll_above xs [] 1 _ (by omega)]
    rfl

/-! ## Pushing the elements of a table -/

theorem heapGet_set_self (H : List LuaTable) (r : Nat) (t : LuaTable) (h : r < H.length) :
    heapGet (H.set r t) r = t := by
  simp [heapGet, List.getD, h]

theorem heapGet_set_ne (H : List LuaTable) (r r' : Nat) (t : LuaTable) (h : r ≠ r') :
    heapGet (H.set r t) r' = heapGet H r' := by
  simp [heapGet, List.getD, List.getElem?_set_ne h]

theorem heapGet_append_left (H E : List LuaTable) (r : Nat) (h : r < H.length) :
    heapGet (H ++ E) r = heapGet H r := by
  simp [heapGet, List.getD, List.getElem?_append_left h]

theorem heapGet_append_new (H : List LuaTable) (t : LuaTable) :
    heapGet (H ++ [t]) H.length = t := by
  simp [heapGet, List.getD]

theorem StableAt.mono {β : Type} {act : Int → LuaM β} {res : β} {x : LuaVal}
    {Hc Hc' : List LuaTable} {lo lo' : Nat} (h : StableAt act res x Hc lo) (hlo : lo' ≤ lo)
    (hlen : Hc.length ≤ Hc'.length) (hag : AgreeFrom lo Hc Hc') :
    StableAt act res x Hc' lo' := by
  intro st H' hH'
  apply h
  intro r h1 h2
  rw [hH' r (by omega) (by omega), hag r h1 h2]

@[simp] theorem index2value_neg_two (a b : LuaVal) (st : List LuaVal) (H : List LuaTable) :
    index2value { stack := a :: b :: st, heap := H } (-2) = some b := by
  simp [index2value, index2pos]

theorem lua_rawseti_neg_two (x : LuaVal) (r0 : Nat) (st : List LuaVal) (H : List LuaTable)
    (i : Int) :
    lua_rawseti (-2) i { stack := x :: .table r0 :: st, heap := H }
      = .ok ((), { stack := .table r0 :: st,
                   heap := H.set r0 (rawset (heapGet H r0) (.integer i) x) }) := by
  simp [lua_rawseti, LuaState.tableAt]

/-- The element loop of the table pushes: with the table under construction
at the top, every element is stored at the next integer key. -/
theorem luaw_push_Tuple_fold_spec {β : Type} (r0 : Nat) (st : List LuaVal) :
    ∀ (args : List (LuaM Int)) (obs : List ((Int → LuaM β) × β)),
      List.Forall₂ (fun push o => Pushes push o.1 o.2) args obs →
      ∀ (i : Int) (Hc : List LuaTable), r0 < Hc.length →
      ∃ xs Hf,
        luaw_push_Tuple_fold args i { stack := .table r0 :: st, heap := Hc }
          = .ok ((), { stack := .table r0 :: st, heap := Hf }) ∧
        Hc.length ≤ Hf.length ∧
        (∀ r, r < Hc.length → r ≠ r0 → heapGet Hf r = heapGet Hc r) ∧
        heapGet Hf r0 = storeAll (heapGet Hc r0) i xs ∧
        List.Forall₂ (fun o x => x ≠ .nil ∧ StableAt o.1 o.2 x Hf (r0 + 1)) obs xs := by
  intro args obs hall
  induction hall with
  | nil =>
    intro i Hc _
    exact ⟨[], Hc, rfl, le_refl _, fun _ _ _ => rfl, rfl, List.Forall₂.nil⟩
  | @cons push o args obs hp _ ih =>
    intro i Hc hr
    obtain ⟨x, Hn, hx, hpush, ⟨hlen, hsame⟩, hst⟩ := hp (.table r0 :: st) Hc
    have hr1 : r0 < (Hn.set r0 (rawset (heapGet Hn r0) (.integer i) x)).length := by
      simp; omega
    obtain ⟨xs, Hf, hrun, hlenf, hsamef, htbl, hallf⟩ :=
      ih (i + 1) (Hn.set r0 (rawset (heapGet Hn r0) (.integer i) x)) hr1
    simp only [List.length_set] at hlenf hsamef
    refine ⟨x :: xs, Hf, ?_, by omega, ?_, ?_, List.Forall₂.cons ⟨hx, ?_⟩ hallf⟩
    · simp only [luaw_push_Tuple_fold, LuaM.bind_run, hpush, lua_rawseti_neg_two, hrun]
    · intro r h1 h2
      rw [hsamef r (by omega) h2, heapGet_set_ne _ _ _ _ (Ne.symm h2), hsame r h1]
    · rw [htbl, heapGet_set_self _ _ _ (by omega), hsame r0 hr]
      rfl
    · apply hst.mono (by omega) hlenf
      intro r h1 h2
      rw [hsamef r h2 (by omega), heapGet_set_ne _ _ _ _ (by omega)]

theorem luaw_push_Iterable_loop_eq {α : Type} (push : α → LuaM Int) (S : List α) :
    ∀ i, luaw_push_Iterable_loop push S i = luaw_push_Tuple_fold (S.map push) i := by
  induction S with
  | nil => intro i; rfl
  | cons a S ih =>
    intro i
    simp only [luaw_push_Iterable_loop, List.map_cons, luaw_push_Tuple_fold, ih]

@[simp] theorem lua_rawgeti_top (r0 : Nat) (i : Int) (st : List LuaVal) (H : List LuaTable) :
    lua_rawgeti (-1) i { stack := .table r0 :: st, heap := H }
      = .ok ((), { stack := rawget (heapGet H r0) (.integer i) :: .table r0 :: st, heap := H }) := by
  simp [lua_rawgeti, LuaState.tableAt]

@[simp] theorem luaw_len_top (r0 : Nat) (st : List LuaVal) (H : List LuaTable) :
    luaw_len (-1) { stack := .table r0 :: st, heap := H }
      = .ok ((rawlen (heapGet H r0) : Int), { stack := .table r0 :: st, heap := H }) := by
  simp [luaw_len, lua_objlen, LuaState.tableAt]

@[simp] theorem luaL_checktype_top (r0 : Nat) (st : List LuaVal) (H : List LuaTable) :
    luaL_checktype (-1) .TTABLE { stack := .table r0 :: st, heap := H }
      = .ok ((), { stack := .table r0 :: st, heap := H }) := by
  simp [luaL_checktype, LuaVal.type]

/-- The read loop of `luaw_to_<Iterable>` on a table at the top of the stack
whose entries convert to the elements of `S`. -/
theorem luaw_to__Iterable_loop_spec {α : Type} (luaw_to_ : Int → LuaM α) (r0 : Nat)
    (st : List LuaVal) (H : List LuaTable) :
    ∀ (S : List α) (xs : List LuaVal),
      List.Forall₂ (fun a x =>
        luaw_to_ (-1) { stack := x :: .table r0 :: st, heap := H }
          = .ok (a, { stack := x :: .table r0 :: st, heap := H })) S xs →
      ∀ (i : Int) (ts : List α),
      (∀ (k : Nat) (hk : k < xs.length), rawget (heapGet H r0) (.integer (i + k)) = xs[k]) →
      luaw_to__Iterable_loop luaw_to_ (-1) S.length i ts { stack := .table r0 :: st, heap := H }
        = .ok (ts ++ S, { stack := .table r0 :: st, heap := H }) := by
  intro S xs hall
  induction hall with
  | nil => intro i ts _; simp [luaw_to__Iterable_loop]
  | @cons a x S xs ha _ ih =>
    intro i ts hget
    have h0 := hget 0 (by simp)
    simp only [Nat.cast_zero, add_zero, List.getElem_cons_zero] at h0
    have hrest : ∀ (k : Nat) (hk : k < xs.length),
        rawget (heapGet H r0) (.integer (i + 1 + k)) = xs[k] := by
      intro k hk
      have := hget (k + 1) (by simpa using hk)
      simp only [List.getElem_cons_succ] at this
      rw [← this]
      congr 2
      push_cast
      ring
    simp only [List.length_cons, luaw_to__Iterable_loop, LuaM.bind_run, lua_rawgeti_top, h0,
      luaw_to, ha, lua_pop_one, ih (i + 1) (ts ++ [a]) hrest]
    simp

theorem forall₂_exists_left {α β : Type} {R : α → β → Prop} {l : List α} {xs : List β}
    (h : List.Forall₂ R l xs) : ∀ x ∈ xs, ∃ a, R a x := by
  induction h with
  | nil => intro x hx; simp at hx
  | cons hab _ ih =>
    intro x hx
    rcases List.mem_cons.1 hx with rfl | hx
    · exact ⟨_, hab⟩
    · exact ih x hx

/-- Sequences of elements that round-trip round-trip: the closure step behind C1. -/
theorem pushes_Iterable {α : Type} (luaw_push : α → LuaM Int) (luaw_to_ : Int → LuaM α)
    (S : List α) (h : ∀ a ∈ S, Pushes (luaw_push a) luaw_to_ a) :
    Pushes (luaw_push_Iterable luaw_push S) (luaw_to__Iterable luaw_to_) S := by
  intro st H
  have hall : List.Forall₂ (fun push (o : (Int → LuaM α) × α) => Pushes push o.1 o.2)
      (S.map luaw_push) (S.map (fun a => (luaw_to_, a))) := by
    rw [List.forall₂_map_left_iff, List.forall₂_map_right_iff, List.forall₂_same]
    exact h
  obtain ⟨xs, Hf, hrun, hlen, hsame, htbl, hst⟩ :=
    luaw_push_Tuple_fold_spec H.length st _ _ hall 1 (H ++ [[]]) (by simp)
  rw [heapGet_append_new] at htbl
  simp only [List.length_append, List.length_singleton] at hlen hsame
  rw [List.forall₂_map_left_iff] at hst
  refine ⟨.table H.length, Hf, by simp, ?_, ⟨by omega, ?_⟩, ?_⟩
  · simp only [luaw_push_Iterable, LuaM.bind_run, lua_newtable, luaw_push_Iterable_loop_eq, hrun]
    rfl
  · intro r hr
    rw [hsame r (by omega) (by omega), heapGet_append_left _ _ _ hr]
  · intro st' H' hag
    have htbl' : heapGet H' H.length = storeAll [] 1 xs := by
      rw [hag H.length (le_refl _) (by omega), htbl]
    have hnn : ∀ x ∈ xs, x ≠ .nil := by
      intro x hx
      obtain ⟨a, ha⟩ := forall₂_exists_left hst x hx
      exact ha.1
    have hlenxs : xs.length = S.length := hst.length_eq.symm
    have hconv : List.Forall₂ (fun a x =>
        luaw_to_ (-1) { stack := x :: .table H.length :: st', heap := H' }
          = .ok (a, { stack := x :: .table H.length :: st', heap := H' })) S xs := by
      apply hst.imp
      intro a x hax
      apply hax.2
      intro r h1 h2
      exact hag r (by omega) h2
    have hloop := luaw_to__Iterable_loop_spec luaw_to_ H.length st' H' S xs hconv 1 []
      (by intro k hk; rw [htbl']; exact rawget_storeAll xs [] 1 k hk)
    have hlen' : rawlen (heapGet H' H.length) = S.length := by
      rw [htbl', rawlen_storeAll xs hnn, hlenxs]
    simp only [luaw_to__Iterable, LuaM.bind_run, luaL_checktype_top, luaw_len_top, hlen',
      Int.toNat_ofNat]
    exact hloop

theorem HeapExtends.refl (H : List LuaTable) : HeapExtends H H :=
  ⟨le_refl _, fun _ _ => rfl⟩

/-- Integers of a host integral type round-trip through a slot. -/
theorem pushes_IntegerType (E : Engine) (T : IntegerType) (n : Int) (h : T.inRange n) :
    Pushes (luaw_push_IntegerType n) (luaw_to__IntegerType E T) n := by
  intro st H
  refine ⟨.integer (wrapInt64 n), H, by simp, rfl, HeapExtends.refl H, ?_⟩
  intro st' H' _
  simp [luaw_to__IntegerType, lua_tointeger, toIntegerVal, tonumber?, numToInteger?,
    wrapInt64_cast T n h]

/-- Text without a zero character round-trips through a slot. -/
theorem pushes_string (E : Engine) (s : Text) (h : NulFree s) :
    Pushes (luaw_push_string s) (luaw_to__string E) s := by
  intro st H
  refine ⟨.string s, H, by simp, ?_, HeapExtends.refl H, ?_⟩
  · simp [luaw_push_string, lua_pushstring, c_str_of_nulFree s h]
  · intro st' H' _
    simp [luaw_to__string, lua_tostring, c_str_of_nulFree s h]

/-- A present optional round-trips when its content does. -/
theorem pushes_Optional {α : Type} (luaw_push : α → LuaM Int) (luaw_to_ : Int → LuaM α) (a : α)
    (h : Pushes (luaw_push a) luaw_to_ a) :
    Pushes (luaw_push_Optional luaw_push (some a)) (luaw_to__Optional luaw_to_) (some a) := by
  intro st H
  obtain ⟨x, Hn, hx, hpush, hext, hst⟩ := h st H
  refine ⟨x, Hn, hx, ?_, hext, ?_⟩
  · simp [luaw_push_Optional, hpush]
  · intro st' H' hag
    have hto := hst st' H' hag
    have hty : x.type ≠ .TNIL := fun e => hx ((type_eq_TNIL_iff x).1 e)
    have hgt : ¬ ((-1 : Int) > ((st'.length : Int) + 1)) := by omega
    simp [luaw_to__Optional, lua_gettop, lua_isnil, luaw_to, hto, hty, hgt]

/-! ## Sequence round trip -/

/-- C1, refuted as stated: the two-element sequence `[1, empty]` of optional
integers is pushed as the table `{1}` and read back as the one-element
sequence `[1]`. -/
theorem luaw_sequence_optional_shrinks :
    (luaw_push_Iterable (luaw_push_Optional luaw_push_IntegerType) [some 1, none] >>= fun _ =>
        luaw_to (luaw_to__Iterable
          (luaw_to__Optional (luaw_to__IntegerType decimalEngine ⟨.w32, true⟩))) (-1))
        { stack := [], heap := [] }
      = .ok ([some 1], { stack := [.table 0], heap := [[(.integer 1, .integer 1)]] })
    ∧ [some (1 : Int)].length ≠ [some (1 : Int), none].length := by
  decide

/-- C1, amended: for every host sequence `S` each of whose elements is pushed
as one slot that is not nil and itself round-trips (`Pushes`), `luaw_push(S)`
followed by `luaw_to` of the sequence type on the pushed table returns `S`
itself: same length, same elements, same order.  The pushed table stays on
top of the stack of before the push. -/
theorem luaw_sequence_round_trip {α : Type} (luaw_push : α → LuaM Int)
    (luaw_to_ : Int → LuaM α) (S : List α) (h : ∀ a ∈ S, Pushes (luaw_push a) luaw_to_ a)
    (L : LuaState) :
    ∃ L', (luaw_push_Iterable luaw_push S >>= fun _ =>
        luaw_to (luaw_to__Iterable luaw_to_) (-1)) L = .ok (S, L') ∧
      ∃ x, L'.stack = x :: L.stack := by
  obtain ⟨st, H⟩ := L
  obtain ⟨x, Hn, _, hpush, _, hst⟩ := pushes_Iterable luaw_push luaw_to_ S h st H
  refine ⟨{ stack := x :: st, heap := Hn }, ?_, x, rfl⟩
  have hto := hst st Hn (fun _ _ _ => rfl)
  simp [hpush, luaw_to, hto]

/-- Witness of `luaw_sequence_round_trip`: the sequence `[[7, 8], [9]]` of
sequences of 32-bit signed integers, on an empty stack. -/
theorem luaw_sequence_round_trip_witness :
    ∃ L', (luaw_push_Iterable (luaw_push_Iterable luaw_push_IntegerType) [[7, 8], [9]] >>= fun _ =>
        luaw_to (luaw_to__Iterable
          (luaw_to__Iterable (luaw_to__IntegerType decimalEngine ⟨.w32, true⟩))) (-1))
        { stack := [], heap := [] } = .ok ([[7, 8], [9]], L') ∧
      ∃ x, L'.stack = x :: [] :=
  luaw_sequence_round_trip (luaw_push_Iterable luaw_push_IntegerType)
    (luaw_to__Iterable (luaw_to__IntegerType decimalEngine ⟨.w32, true⟩)) [[7, 8], [9]]
    (fun s hs => pushes_Iterable _ _ s (fun n hn => pushes_IntegerType _ _ n
      ((by decide : ∀ s ∈ ([[7, 8], [9]] : List (List Int)), ∀ n ∈ s,
        IntegerType.inRange ⟨.w32, true⟩ n) s hs n hn)))
    { stack := [], heap := [] }

/-! ## Tuples -/

theorem lua_rawgeti_at (L : LuaState) (index : Int) (r : Nat) (n : Int)
    (hi : index2value L index = some (.table r)) :
    lua_rawgeti index n L = .ok ((), L.push (rawget (L.tableAt r) (.integer n))) := by
  simp [lua_rawgeti, hi, LuaState.push]

@[simp] theorem lua_pop_one_push (L : LuaState) (v : LuaVal) :
    lua_pop 1 (L.push v) = .ok ((), L) := by
  obtain ⟨st, H⟩ := L
  simp [LuaState.push]

/-- The conversions of a tuple leave the table slot where it was: each
position is read with `lua_rawgeti(L, index, I + 1)` and popped again. -/
theorem tuple_element_set_spec {α : Type} (L : LuaState) (index : Int) (r : Nat)
    (hi : index2value L index = some (.table r)) :
    ∀ (T : List (Int → LuaM α)) (I : Nat),
      (∀ to_ ∈ T, ∀ L' : LuaState, ∃ x, to_ (-1) L' = .ok (x, L')) →
      ∃ xs : List α, tuple_element_set index T I L = .ok (xs, L) ∧ xs.length = T.length ∧
        ∀ (p : Nat) (hp : p < T.length) (hx : p < xs.length),
          T[p] (-1) (L.push (rawget (L.tableAt r) (.integer (((I + p : Nat) : Int) + 1))))
            = .ok (xs[p],
                L.push (rawget (L.tableAt r) (.integer (((I + p : Nat) : Int) + 1)))) := by
  intro T
  induction T with
  | nil =>
    intro I _
    exact ⟨[], rfl, rfl, fun p hp => by simp at hp⟩
  | cons to_ T ih =>
    intro I hpure
    obtain ⟨x, hx⟩ := hpure to_ (by simp)
      (L.push (rawget (L.tableAt r) (.integer ((I : Int) + 1))))
    obtain ⟨xs, hrun, hlen, hall⟩ := ih (I + 1) (fun t ht => hpure t (by simp [ht]))
    refine ⟨x :: xs, ?_, by simp [hlen], ?_⟩
    · simp only [tuple_element_set, LuaM.bind_run, lua_rawgeti_at _ index r _ hi, luaw_pop,
        luaw_to, hx, lua_pop_one_push, hrun, LuaM.pure_run]
    · intro p hp hpx
      cases p with
      | zero => simpa using hx
      | succ p =>
        have := hall p (by simpa using hp) (by simpa using hpx)
        simp only [List.getElem_cons_succ]
        have e : I + (p + 1) = I + 1 + p := by omega
        rw [e]
        exact this

/-- C6, refuted as stated: on the three-entry table `{10, 20, 30}` the
conversion to a pair of integers raises nothing and returns `(10, 20)`, and on
the one-entry table `{10}` it raises nothing and returns `(10, 0)`. -/
theorem luaw_to_Tuple_longer_table :
    luaw_to (luaw_to__Tuple [luaw_to__IntegerType decimalEngine ⟨.w32, true⟩,
        luaw_to__IntegerType decimalEngine ⟨.w32, true⟩]) (-1)
        { stack := [.table 0],
          heap := [[(.integer 1, .integer 10), (.integer 2, .integer 20),
            (.integer 3, .integer 30)]] }
      = .ok ([10, 20],
        { stack := [.table 0],
          heap := [[(.integer 1, .integer 10), (.integer 2, .integer 20),
            (.integer 3, .integer 30)]] }) ∧
    luaw_to (luaw_to__Tuple [luaw_to__IntegerType decimalEngine ⟨.w32, true⟩,
        luaw_to__IntegerType decimalEngine ⟨.w32, true⟩]) (-1)
        { stack := [.table 0], heap := [[(.integer 1, .integer 10)]] }
      = .ok ([10, 0], { stack := [.table 0], heap := [[(.integer 1, .integer 10)]] }) := by
  decide

/-- C6, amended: for every tuple type `T` whose per-position conversions
return on every slot without changing the state (as the integer conversion
does), and every valid index holding a table of ANY length, `luaw_to<T>`
raises nothing: it returns a tuple of the arity of `T` whose component `p` is
the conversion of the table entry at position `p` (nil when the table has
none), and leaves the state as it was. -/
theorem luaw_to_Tuple_unchecked {α : Type} (T : List (Int → LuaM α)) (L : LuaState)
    (index : Int) (r : Nat) (hi : index2value L index = some (.table r))
    (hpure : ∀ to_ ∈ T, ∀ L' : LuaState, ∃ x, to_ (-1) L' = .ok (x, L')) :
    ∃ xs : List α, luaw_to (luaw_to__Tuple T) index L = .ok (xs, L) ∧ xs.length = T.length ∧
      ∀ (p : Nat) (hp : p < T.length) (hx : p < xs.length),
        T[p] (-1) (L.push (rawget (L.tableAt r) (.integer ((p : Int) + 1))))
          = .ok (xs[p], L.push (rawget (L.tableAt r) (.integer ((p : Int) + 1)))) := by
  obtain ⟨xs, hrun, hlen, hall⟩ := tuple_element_set_spec L index r hi T 0 hpure
  refine ⟨xs, hrun, hlen, ?_⟩
  intro p hp hx
  have := hall p hp hx
  simpa using this

theorem luaw_to__IntegerType_pure (E : Engine) (T : IntegerType) (L : LuaState) :
    ∃ x, luaw_to__IntegerType E T (-1) L = .ok (x, L) := by
  unfold luaw_to__IntegerType lua_tointeger
  cases h : index2value L (-1) <;> simp [h]

/-- Witness of `luaw_to_Tuple_unchecked`: a pair of integers read from the
one-entry table `{10}`. -/
theorem luaw_to_Tuple_unchecked_witness :
    ∃ xs : List Int,
      luaw_to (luaw_to__Tuple [luaw_to__IntegerType decimalEngine ⟨.w32, true⟩,
        luaw_to__IntegerType decimalEngine ⟨.w32, true⟩]) 1
        { stack := [.table 0], heap := [[(.integer 1, .integer 10)]] }
        = .ok (xs, { stack := [.table 0], heap := [[(.integer 1, .integer 10)]] }) ∧
      xs.length = 2 :=
  have h := luaw_to_Tuple_unchecked
    [luaw_to__IntegerType decimalEngine ⟨.w32, true⟩,
      luaw_to__IntegerType decimalEngine ⟨.w32, true⟩]
    { stack := [.table 0], heap := [[(.integer 1, .integer 10)]] } 1 0 (by decide)
    (fun to_ ht L' => by
      simp only [List.mem_cons, List.mem_singleton, List.not_mem_nil, or_false, or_self] at ht
      subst ht
      exact luaw_to__IntegerType_pure _ _ L')
  ⟨h.choose, h.choose_spec.1, h.choose_spec.2.1⟩

/-- The element tests of `luaw_is<Tuple>`, read from the table at the TOP of
the stack, when every test returns and leaves the state as it found it. -/
theorem tuple_element_is_spec (L : LuaState) (r : Nat)
    (hi : index2value L (-1) = some (.table r)) :
    ∀ (T : List (Int → LuaM Bool)) (I : Nat),
      (∀ is_ ∈ T, ∀ L' : LuaState, ∃ b, is_ (-1) L' = .ok (b, L')) →
      ∃ b, tuple_element_is T I L = .ok (b, L) ∧
        (b = true ↔ ∀ (p : Nat) (hp : p < T.length),
          T[p] (-1) (L.push (rawget (L.tableAt r) (.integer (((I + p : Nat) : Int) + 1))))
            = .ok (true, L.push (rawget (L.tableAt r) (.integer (((I + p : Nat) : Int) + 1))))) := by
  intro T
  induction T with
  | nil =>
    intro I _
    exact ⟨true, rfl, by simp⟩
  | cons is_ T ih =>
    intro I hpure
    obtain ⟨b0, h0⟩ := hpure is_ (by simp)
      (L.push (rawget (L.tableAt r) (.integer ((I : Int) + 1))))
    obtain ⟨b1, hrun, hiff⟩ := ih (I + 1) (fun t ht => hpure t (by simp [ht]))
    cases b0 with
    | false =>
      refine ⟨false, ?_, ?_⟩
      · simp only [tuple_element_is, LuaM.bind_run, lua_rawgeti_at _ (-1) r _ hi, h0,
          lua_pop_one_push]
        rfl
      · constructor
        · intro h; cases h
        · intro h
          have := h 0 (by simp)
          simp only [List.getElem_cons_zero, add_zero] at this
          rw [h0] at this
          simp at this
    | true =>
      refine ⟨b1, ?_, ?_⟩
      · simp only [tuple_element_is, LuaM.bind_run, lua_rawgeti_at _ (-1) r _ hi, h0,
          lua_pop_one_push]
        exact hrun
      · rw [hiff]
        constructor
        · intro h p hp
          cases p with
          | zero => simpa using h0
          | succ p =>
            have := h p (by simpa using hp)
            simp only [List.getElem_cons_succ]
            have e : I + (p + 1) = I + 1 + p := by omega
            rw [e]
            exact this
        · intro h p hp
          have := h (p + 1) (by simpa using hp)
          simp only [List.getElem_cons_succ] at this
          have e : I + (p + 1) = I + 1 + p := by omega
          rw [e] at this
          exact this

/-- The element tests succeed on a table at the top of the stack whose
entries each pass their test. -/
theorem tuple_element_is_true (r0 : Nat) (st : List LuaVal) (H : List LuaTable) :
    ∀ (T : List (Int → LuaM Bool)) (xs : List LuaVal),
      List.Forall₂ (fun is_ x =>
        is_ (-1) { stack := x :: .table r0 :: st, heap := H }
          = .ok (true, { stack := x :: .table r0 :: st, heap := H })) T xs →
      ∀ (I : Nat),
      (∀ (k : Nat) (hk : k < xs.length),
        rawget (heapGet H r0) (.integer (((I + k : Nat) : Int) + 1)) = xs[k]) →
      tuple_element_is T I { stack := .table r0 :: st, heap := H }
        = .ok (true, { stack := .table r0 :: st, heap := H }) := by
  intro T xs hall
  induction hall with
  | nil => intro I _; rfl
  | @cons is_ x T xs ha _ ih =>
    intro I hget
    have h0 := hget 0 (by simp)
    simp only [add_zero, List.getElem_cons_zero] at h0
    have hrest : ∀ (k : Nat) (hk : k < xs.length),
        rawget (heapGet H r0) (.integer (((I + 1 + k : Nat) : Int) + 1)) = xs[k] := by
      intro k hk
      have := hget (k + 1) (by simpa using hk)
      simp only [List.getElem_cons_succ] at this
      have e : I + 1 + k = I + (k + 1) := by omega
      rw [e]
      exact this
    simp only [tuple_element_is, LuaM.bind_run, lua_rawgeti_top, h0, ha, lua_pop_one]
    simpa using ih (I + 1) hrest

/-- C5, refuted as stated, in two ways.  (1) The table `{1, 2}` passes the
test for a pair of integers when it is at the top of the stack, and fails it
at index 1 once the table `{true, false}` lies above it: the elements are read
from the top slot, not from slot `index`.  (2) The pair `(1, empty optional)`
is pushed as the one-entry table `{1}`, on which the test of its own type
answers false. -/
theorem luaw_is_Tuple_fails :
    (luaw_is_Tuple [luaw_is_IntegerType decimalEngine, luaw_is_IntegerType decimalEngine] (-1)
        { stack := [.table 0],
          heap := [[(.integer 1, .integer 1), (.integer 2, .integer 2)],
            [(.integer 1, .boolean true), (.integer 2, .boolean false)]] }
      = .ok (true,
        { stack := [.table 0],
          heap := [[(.integer 1, .integer 1), (.integer 2, .integer 2)],
            [(.integer 1, .boolean true), (.integer 2, .boolean false)]] }) ∧
     luaw_is_Tuple [luaw_is_IntegerType decimalEngine, luaw_is_IntegerType decimalEngine] 1
        { stack := [.table 1, .table 0],
          heap := [[(.integer 1, .integer 1), (.integer 2, .integer 2)],
            [(.integer 1, .boolean true), (.integer 2, .boolean false)]] }
      = .ok (false,
        { stack := [.table 1, .table 0],
          heap := [[(.integer 1, .integer 1), (.integer 2, .integer 2)],
            [(.integer 1, .boolean true), (.integer 2, .boolean false)]] })) ∧
    (luaw_push_Tuple [luaw_push_IntegerType 1, luaw_push_Optional luaw_push_IntegerType none]
        >>= fun _ => luaw_is_Tuple [luaw_is_IntegerType decimalEngine,
          luaw_is_Optional (luaw_is_IntegerType decimalEngine)] (-1))
        { stack := [], heap := [] }
      = .ok (false, { stack := [.table 0], heap := [[(.integer 1, .integer 1)]] }) := by
  decide

/-- C5, amended: for every tuple type `T` of arity `k` whose per-position
tests return and leave the state as they found it, and every stack whose TOP
slot is tested, `luaw_is<T>(L, -1)` leaves the state unchanged and is true if
and only if the top slot is a table of length exactly `k` whose entry at each
position `p` in 1..k passes the test of position `p`; and for every tuple
value each of whose components is pushed as one slot that is not nil and
passes its own test (`Pushes`), `luaw_is<T>` is true on the table written by
`luaw_push`. -/
theorem luaw_is_Tuple_top (T : List (Int → LuaM Bool))
    (hpure : ∀ is_ ∈ T, ∀ L' : LuaState, ∃ b, is_ (-1) L' = .ok (b, L')) :
    (∀ (v : LuaVal) (st : List LuaVal) (H : List LuaTable),
      ∃ b, luaw_is_Tuple T (-1) { stack := v :: st, heap := H }
          = .ok (b, { stack := v :: st, heap := H }) ∧
        (b = true ↔ ∃ r, v = .table r ∧ rawlen (heapGet H r) = T.length ∧
          ∀ (p : Nat) (hp : p < T.length),
            T[p] (-1) { stack := rawget (heapGet H r) (.integer ((p : Int) + 1)) :: v :: st,
                        heap := H }
              = .ok (true,
                { stack := rawget (heapGet H r) (.integer ((p : Int) + 1)) :: v :: st,
                  heap := H }))) ∧
    (∀ (args : List (LuaM Int)),
      List.Forall₂ (fun push is_ => Pushes push is_ true) args T →
      ∀ L : LuaState, ∃ L', (luaw_push_Tuple args >>= fun _ => luaw_is_Tuple T (-1)) L
          = .ok (true, L') ∧ ∃ x, L'.stack = x :: L.stack) := by
  constructor
  · intro v st H
    by_cases hv : ∃ r, v = .table r
    · obtain ⟨r, rfl⟩ := hv
      by_cases hlen : rawlen (heapGet H r) = T.length
      · obtain ⟨b, hrun, hiff⟩ := tuple_element_is_spec
          { stack := .table r :: st, heap := H } r (by simp) T 0 hpure
        refine ⟨b, ?_, ?_⟩
        · simp only [luaw_is_Tuple, LuaM.bind_run, lua_type_top, LuaVal.type, luaw_len_top, hlen]
          simpa [hlen] using hrun
        · rw [hiff]
          constructor
          · intro h
            refine ⟨r, rfl, hlen, fun p hp => ?_⟩
            simpa [LuaState.push, LuaState.tableAt] using h p hp
          · rintro ⟨r', hr', _, h⟩ p hp
            cases hr'
            simpa [LuaState.push, LuaState.tableAt] using h p hp
      · refine ⟨false, ?_, ?_⟩
        · have hne : ¬ ((rawlen (heapGet H r) : Int) = (T.length : Int)) := by
            intro e; exact hlen (by exact_mod_cast e)
          simp [luaw_is_Tuple, LuaVal.type, hne]
        · constructor
          · intro h; cases h
          · rintro ⟨r', hr', hl, _⟩
            cases hr'
            exact absurd hl hlen
    · refine ⟨false, ?_, ?_⟩
      · have hty : v.type ≠ .TTABLE := fun e => hv ((type_eq_TTABLE_iff v).1 e)
        simp [luaw_is_Tuple, hty]
      · constructor
        · intro h; cases h
        · rintro ⟨r, hr, _⟩
          exact absurd ⟨r, hr⟩ hv
  · intro args hall L
    obtain ⟨st, H⟩ := L
    have hall' : List.Forall₂ (fun push (o : (Int → LuaM Bool) × Bool) => Pushes push o.1 o.2)
        args (T.map (fun t => (t, true))) := by
      rw [List.forall₂_map_right_iff]
      exact hall
    obtain ⟨xs, Hf, hrun, _, _, htbl, hst⟩ :=
      luaw_push_Tuple_fold_spec H.length st _ _ hall' 1 (H ++ [[]]) (by simp)
    rw [heapGet_append_new] at htbl
    rw [List.forall₂_map_left_iff] at hst
    have hnn : ∀ x ∈ xs, x ≠ .nil := fun x hx => (forall₂_exists_left hst x hx).choose_spec.1
    have hlenxs : xs.length = T.length := hst.length_eq.symm
    have hconv : List.Forall₂ (fun is_ x =>
        is_ (-1) { stack := x :: .table H.length :: st, heap := Hf }
          = .ok (true, { stack := x :: .table H.length :: st, heap := Hf })) T xs := by
      apply hst.imp
      intro a x hax
      exact hax.2 _ _ (fun _ _ _ => rfl)
    have hel := tuple_element_is_true H.length st Hf T xs hconv 0 (by
      intro k hk
      rw [htbl]
      have := rawget_storeAll xs [] 1 k hk
      rw [← this]
      congr 2
      push_cast
      ring)
    refine ⟨{ stack := .table H.length :: st, heap := Hf }, ?_, _, rfl⟩
    have hlen' : rawlen (heapGet Hf H.length) = T.length := by
      rw [htbl, rawlen_storeAll xs hnn, hlenxs]
    simp only [luaw_push_Tuple, LuaM.bind_run, lua_newtable, hrun, LuaM.pure_run, luaw_is_Tuple,
      lua_type_top, LuaVal.type, luaw_len_top, hlen']
    simpa [hlen'] using hel

theorem luaw_is_IntegerType_pure (E : Engine) (L : LuaState) :
    ∃ b, luaw_is_IntegerType E (-1) L = .ok (b, L) := by
  unfold luaw_is_IntegerType lua_isnumber lua_tointeger
  cases h : index2value L (-1) with
  | none => exact ⟨false, by simp [h]⟩
  | some v =>
    cases hn : (tonumber? E v).isSome
    · exact ⟨false, by simp [h, hn]⟩
    · exact ⟨true, by simp [h, hn]⟩

/-- A pushed integer passes the integer test. -/
theorem pushes_is_IntegerType (E : Engine) (n : Int) :
    Pushes (luaw_push_IntegerType n) (luaw_is_IntegerType E) true := by
  intro st H
  refine ⟨.integer (wrapInt64 n), H, by simp, rfl, HeapExtends.refl H, ?_⟩
  intro st' H' _
  simp [luaw_is_IntegerType, lua_isnumber, lua_tointeger, tonumber?]

/-- Witness of `luaw_is_Tuple_top` at the type of pairs of integers: the
pushed pair `(1, 2)` passes the test. -/
theorem luaw_is_Tuple_top_witness :
    ∃ L', (luaw_push_Tuple [luaw_push_IntegerType 1, luaw_push_IntegerType 2] >>= fun _ =>
        luaw_is_Tuple [luaw_is_IntegerType decimalEngine, luaw_is_IntegerType decimalEngine]
          (-1)) { stack := [], heap := [] } = .ok (true, L') ∧
      ∃ x, L'.stack = x :: [] :=
  (luaw_is_Tuple_top [luaw_is_IntegerType decimalEngine, luaw_is_IntegerType decimalEngine]
    (fun is_ ht L' => by
      simp only [List.mem_cons, List.mem_singleton, List.not_mem_nil, or_false, or_self] at ht
      subst ht
      exact luaw_is_IntegerType_pure _ L')).2
    [luaw_push_IntegerType 1, luaw_push_IntegerType 2]
    (List.Forall₂.cons (pushes_is_IntegerType _ 1)
      (List.Forall₂.cons (pushes_is_IntegerType _ 2) List.Forall₂.nil))
    { stack := [], heap := [] }

/-! ## Setting fields and optional reads -/

/-- C11, the code at the failing input: with `{x = 1}` at index 1 and
`{x = 2}` at index 2, `luaw_setfield<int>(L, 2, "x", 7, true)` stores 7 in the
table at index 1 and leaves the one at index 2 alone (`index - 1` is taken
after the push, which is right for a negative index only), so the following
`luaw_getfield<int>(L, 2, "x", true)` returns 2.  Through the negative index
-1 the same calls on `{a = {b = {c = 5}}}` and `a.b.c` return 7, at the depth
of before the set. -/
theorem luaw_setfield_positive_index :
    (luaw_setfield_T (luaw_push_IntegerType 7) 2 "x".toList true >>= fun _ =>
        luaw_getfield_T (luaw_to__IntegerType decimalEngine ⟨.w32, true⟩) 2 "x".toList true)
        twoTablesExample
      = .ok (2, { stack := [.table 1, .table 0],
                  heap := [[(.string "x".toList, .integer 7)],
                    [(.string "x".toList, .integer 2)]] }) ∧
    (luaw_setfield_T (luaw_push_IntegerType 7) (-1) "a.b.c".toList true >>= fun _ =>
        luaw_getfield_T (luaw_to__IntegerType decimalEngine ⟨.w32, true⟩) (-1) "a.b.c".toList
          true) nestedExample
      = .ok (7, { stack := [.table 0],
                  heap := [[(.string "a".toList, .table 1)], [(.string "b".toList, .table 2)],
                    [(.string "c".toList, .integer 7)]] }) := by
  decide

/-- C12, the code at the failing input: on `{a = 5}` and the path `a.b` the
qualified `luaw_setfield` raises no missing-field error.  The intermediate 5
passes the loop (the stream is at its end, so `iss.peek() != EOF` is false),
and the engine raises from `lua_setfield` on the number, four slots above the
depth of before the call.  When the intermediate is nil (path `z.b`) the
missing-field error is raised, on the state of before the call. -/
theorem luaw_setfield_number_intermediate :
    luaw_setfield (-2) "a.b".toList true numberFieldExample
      = .error (.runtime "attempt to index a non-table value".toList
          { stack := [.integer 7, .integer 5, .table 0, .integer 7, .table 0],
            heap := [[(.string "a".toList, .integer 5)]] }) ∧
    luaw_setfield (-2) "z.b".toList true numberFieldExample
      = .error (.runtime (fieldNotFound "z.b".toList) numberFieldExample) := by
  decide

/-- C16, the code at the failing inputs.  Non-qualified, on `{x = 1}`: the
present field `x` reads as an empty optional and the absent field `y` as an
optional holding 0.  Qualified, on `{a = {b = {c = 5}}}`: the present path
`a.b.c` reads as an optional holding 0, not 5 (the inner read is not
qualified); only a path without a dot reads right. -/
theorem luaw_getfield_Optional_fails :
    luaw_getfield_Optional (luaw_to__IntegerType decimalEngine ⟨.w32, true⟩) 1 "x".toList false
        flatExample = .ok (none, flatExample) ∧
    luaw_getfield_Optional (luaw_to__IntegerType decimalEngine ⟨.w32, true⟩) 1 "y".toList false
        flatExample = .ok (some 0, flatExample) ∧
    luaw_getfield_Optional (luaw_to__IntegerType decimalEngine ⟨.w32, true⟩) 1 "a.b.c".toList
        true nestedExample = .ok (some 0, nestedExample) ∧
    luaw_getfield_Optional (luaw_to__IntegerType decimalEngine ⟨.w32, true⟩) 1 "x".toList true
        flatExample = .ok (some 1, flatExample) := by
  decide

/-! ## Protected calls -/

theorem index2pos_pos (st : List LuaVal) (H : List LuaTable) (k : Nat) (hk : k < st.length) :
    index2pos { stack := st, heap := H } ((st.length : Int) - k) = some k := by
  have h1 : ¬ ((st.length : Int) - k < 0) := by omega
  have h2 : 0 < (st.length : Int) - k := by omega
  have h3 : ((st.length : Int) - k).toNat = st.length - k := by omega
  simp only [index2pos, if_neg h1, h2, h3, true_and]
  rw [if_pos (by omega)]
  congr 1
  omega

/-- C13, what the code does: when the callable `f`, pushed with its arguments
`args` on a stack `orig` of depth d, raises and the message handler
`luaw_error_handler` returns the text `s` for its error object, `luaw_pcall`
throws a `LuawException` carrying `s`; at the throw the handler, the callable
and the arguments are gone, but the text `s` is still on top of `orig`: the
depth is d + 1, not d. -/
theorem luaw_pcall_raises (E : Engine) (I : Interp) (f e : LuaVal) (args orig : List LuaVal)
    (H He Hm : List LuaTable) (s : Text) (nresults : Int)
    (hcall : callValue I f args H = .raises e He)
    (hmsg : callValue I (.function luaw_error_handler_id) [e] He = .returns [.string s] Hm) :
    luaw_pcall E I args.length nresults { stack := args.reverse ++ f :: orig, heap := H }
      = .error (.luawException (c_str s) { stack := .string s :: orig, heap := Hm }) := by
  have hlen : (((args.reverse ++ f :: orig).length : Nat) : Int) - (args.length : Int)
      = (orig.length : Int) + 1 := by
    simp only [List.length_append, List.length_reverse, List.length_cons]
    push_cast
    ring
  -- the handler is pushed and moved below the callable
  have hins : lua_insert ((orig.length : Int) + 1)
      { stack := .function luaw_error_handler_id :: (args.reverse ++ f :: orig), heap := H }
      = .ok ((), { stack := args.reverse ++ f :: .function luaw_error_handler_id :: orig,
                   heap := H }) := by
    have hp := index2pos_pos
      (.function luaw_error_handler_id :: (args.reverse ++ f :: orig)) H (args.length + 1)
      (by simp)
    have he : ((.function luaw_error_handler_id :: (args.reverse ++ f :: orig) : List LuaVal).length
        : Int) - ((args.length + 1 : Nat) : Int) = (orig.length : Int) + 1 := by
      simp only [List.length_append, List.length_reverse, List.length_cons]
      push_cast
      ring
    rw [he] at hp
    simp only [lua_insert, hp]
    have h1 : (args.reverse ++ f :: orig).take (args.length + 1) = args.reverse ++ [f] := by
      rw [List.take_append_eq_append_take]
      simp
    have h2 : (args.reverse ++ f :: orig).drop (args.length + 1) = orig := by
      rw [List.drop_append_eq_append_drop]
      simp
    rw [h1, h2]
    simp
  -- the protected call replaces callable and arguments by the handler's text
  have hpc : lua_pcall I (args.length : Int) nresults ((orig.length : Int) + 1)
      { stack := args.reverse ++ f :: .function luaw_error_handler_id :: orig, heap := H }
      = .ok (.LUA_ERRRUN,
          { stack := .string s :: .function luaw_error_handler_id :: orig, heap := Hm }) := by
    have hd : (args.reverse ++ f :: .function luaw_error_handler_id :: orig).drop args.length
        = f :: .function luaw_error_handler_id :: orig := by
      rw [List.drop_append_eq_append_drop]
      simp
    have ht : ((args.reverse ++ f :: .function luaw_error_handler_id :: orig).take
        args.length).reverse = args := by
      rw [List.take_left' (by simp)]
      simp
    have hp := index2pos_pos
      (args.reverse ++ f :: .function luaw_error_handler_id :: orig) H (args.length + 1)
      (by simp)
    have he : ((args.reverse ++ f :: .function luaw_error_handler_id :: orig : List LuaVal).length
        : Int) - ((args.length + 1 : Nat) : Int) = (orig.length : Int) + 1 := by
      simp only [List.length_append, List.length_reverse, List.length_cons]
      push_cast
      ring
    rw [he] at hp
    have hv : index2value
        { stack := args.reverse ++ f :: .function luaw_error_handler_id :: orig, heap := H }
        ((orig.length : Int) + 1) = some (.function luaw_error_handler_id) := by
      simp only [index2value, hp]
      rw [List.getElem?_append_right (by simp)]
      simp
    have hne : ¬ ((orig.length : Int) + 1 = 0) := by omega
    have hnn : (0 : Int) ≤ (args.length : Int) := by omega
    simp only [lua_pcall, if_pos hnn, Int.toNat_ofNat, hd, ht, hcall, if_neg hne, hv, hmsg,
      List.headD_cons]
  have hrm : lua_remove ((orig.length : Int) + 1)
      { stack := .string s :: .function luaw_error_handler_id :: orig, heap := Hm }
      = .ok ((), { stack := .string s :: orig, heap := Hm }) := by
    have hp := index2pos_pos (.string s :: .function luaw_error_handler_id :: orig) Hm 1
      (by simp)
    have he : ((.string s :: .function luaw_error_handler_id :: orig : List LuaVal).length : Int)
        - ((1 : Nat) : Int) = (orig.length : Int) + 1 := by
      simp only [List.length_cons]
      push_cast
      ring
    rw [he] at hp
    simp [lua_remove, hp]
  simp only [luaw_pcall, LuaM.bind_run, lua_gettop, hlen, lua_pushcfunction, hins, hpc, hrm]
  simp [lua_tostring]

/-- Witness of `luaw_pcall_raises`: the function raising `boom`, called
without arguments on an otherwise empty stack. -/
theorem luaw_pcall_raises_witness :
    luaw_pcall decimalEngine demoInterp 0 1 { stack := [.function 3], heap := demoGlobals }
      = .error (.luawException "boom (traceback)".toList
          { stack := [.string "boom (traceback)".toList], heap := demoGlobals }) :=
  luaw_pcall_raises decimalEngine demoInterp (.function 3) (.string "boom".toList) [] []
    demoGlobals demoGlobals demoGlobals "boom (traceback)".toList 1 (by decide) (by decide)

/-- The same failure through `luaw_call_global`: calling the global `fail`
with the argument 4 on an empty stack throws with one slot left on the stack. -/
theorem luaw_call_global_raises :
    luaw_call_global decimalEngine demoInterp (luaw_to__IntegerType decimalEngine ⟨.w32, true⟩)
        "fail".toList [luaw_push_IntegerType 4] { stack := [], heap := demoGlobals }
      = .error (.luawException "boom (traceback)".toList
          { stack := [.string "boom (traceback)".toList], heap := demoGlobals }) := by
  decide

/-! ## Iteration -/

theorem luaw_len_at (L : LuaState) (index : Int) (r : Nat)
    (hi : index2value L index = some (.table r)) :
    luaw_len index L = .ok ((rawlen (L.tableAt r) : Int), L) := by
  simp [luaw_len, lua_objlen, hi]

/-- The loop of `luaw_ipairs` over the entries `i`, ..., `i + n - 1`. -/
theorem luaw_ipairs_loop_run {σ : Type} (fn : Int → σ → LuaM σ)
    (Inv : σ → List LuaTable → Prop) (r : Nat) (orig : List LuaVal) (sz : Int)
    (hbal : ∀ i s H, Inv s H → 1 ≤ i → i ≤ sz →
      KeepsBalance Inv (fn i s) (rawget (heapGet H r) (.integer i)) (.table r :: orig) H) :
    ∀ (n : Nat) (i : Int) (s : σ) (H : List LuaTable), 1 ≤ i → i + n = sz + 1 → Inv s H →
      EndsBalanced Inv orig (luaw_ipairs_loop fn n i s { stack := .table r :: orig, heap := H }) ∨
      ∃ j s1 H1, Inv s1 H1 ∧ 1 ≤ j ∧ j ≤ sz ∧
        EndsRaised (fn j s1) (rawget (heapGet H1 r) (.integer j)) (.table r :: orig) H1
          (luaw_ipairs_loop fn n i s { stack := .table r :: orig, heap := H }) := by
  intro n
  induction n with
  | zero =>
    intro i s H _ _ hinv
    exact Or.inl ⟨s, { stack := orig, heap := H }, by simp [luaw_ipairs_loop], rfl, hinv⟩
  | succ n ih =>
    intro i s H h1 hn hinv
    have hle : i ≤ sz := by push_cast at hn; omega
    have hget : lua_rawgeti (-1) i { stack := .table r :: orig, heap := H }
        = .ok ((), { stack := rawget (heapGet H r) (.integer i) :: .table r :: orig,
                     heap := H }) := by
      simp
    cases hrun : fn i s ⟨rawget (heapGet H r) (.integer i) :: .table r :: orig, H⟩ with
    | error e =>
      refine Or.inr ⟨i, s, H, hinv, h1, hle, e, hrun, ?_⟩
      simp only [luaw_ipairs_loop, LuaM.bind_run, hget, hrun]
    | ok p =>
      obtain ⟨s1, L1⟩ := p
      obtain ⟨⟨x, hst⟩, hinv1⟩ := hbal i s H hinv h1 hle s1 L1 hrun
      obtain ⟨st1, H1⟩ := L1
      simp only at hst hinv1
      subst hst
      have hstep : luaw_ipairs_loop fn (n + 1) i s { stack := .table r :: orig, heap := H }
          = luaw_ipairs_loop fn n (i + 1) s1 { stack := .table r :: orig, heap := H1 } := by
        simp only [luaw_ipairs_loop, LuaM.bind_run, hget, hrun, lua_pop_one]
      rw [hstep]
      exact ih (i + 1) s1 H1 (by omega) (by push_cast at hn ⊢; omega) hinv1

theorem luaw_ipairs_run {σ : Type} (fn : Int → σ → LuaM σ) (Inv : σ → List LuaTable → Prop)
    (L : LuaState) (index : Int) (r : Nat) (hi : index2value L index = some (.table r))
    (s0 : σ) (hinv : Inv s0 L.heap)
    (hbal : ∀ i s H, Inv s H → 1 ≤ i → i ≤ (rawlen (L.tableAt r) : Int) →
      KeepsBalance Inv (fn i s) (rawget (heapGet H r) (.integer i)) (.table r :: L.stack) H) :
    EndsBalanced Inv L.stack (luaw_ipairs index fn s0 L) ∨
    ∃ i s H, Inv s H ∧ 1 ≤ i ∧ i ≤ (rawlen (L.tableAt r) : Int) ∧
      EndsRaised (fn i s) (rawget (heapGet H r) (.integer i)) (.table r :: L.stack) H
        (luaw_ipairs index fn s0 L) := by
  obtain ⟨st, H⟩ := L
  have hrun : luaw_ipairs index fn s0 { stack := st, heap := H }
      = luaw_ipairs_loop fn (rawlen (heapGet H r)) 1 s0 { stack := .table r :: st, heap := H } := by
    simp only [luaw_ipairs, LuaM.bind_run, luaw_len_at _ index r hi, lua_pushvalue, hi,
      Int.toNat_ofNat, LuaState.tableAt]
  rw [hrun]
  exact luaw_ipairs_loop_run fn Inv r st (rawlen (heapGet H r) : Int) hbal
    (rawlen (heapGet H r)) 1 s0 H (le_refl 1) (by ring) hinv

theorem entriesAfter_keys (pre post : List LuaVal) (k : LuaVal) :
    ∀ (t : LuaTable), t.map Prod.fst = pre ++ k :: post → (pre ++ k :: post).Nodup →
      ∃ es, entriesAfter t k = some es ∧ es.map Prod.fst = post ∧ ∀ e ∈ es, e ∈ t := by
  induction pre with
  | nil =>
    intro t hk _
    cases t with
    | nil => simp at hk
    | cons e t =>
      obtain ⟨k', v'⟩ := e
      simp only [List.map_cons, List.nil_append, List.cons.injEq] at hk
      obtain ⟨rfl, ht⟩ := hk
      exact ⟨t, by simp [entriesAfter], ht, fun e he => by simp [he]⟩
  | cons p pre ih =>
    intro t hk hnd
    cases t with
    | nil => simp at hk
    | cons e t =>
      obtain ⟨k', v'⟩ := e
      simp only [List.map_cons, List.cons_append, List.cons.injEq] at hk
      obtain ⟨rfl, ht⟩ := hk
      simp only [List.cons_append, List.nodup_cons] at hnd
      have hne : k' ≠ k := by
        intro e
        apply hnd.1
        rw [e]
        simp
      obtain ⟨es, h1, h2, h3⟩ := ih t ht hnd.2
      exact ⟨es, by simp [entriesAfter, hne, h1], h2, fun e he => by simp [h3 e he]⟩

theorem dropWhile_dead (es : LuaTable) :
    es.dropWhile (fun e => e.2 = .nil) = [] ∨
    ∃ d k v rest, es.dropWhile (fun e => e.2 = .nil) = (k, v) :: rest ∧ v ≠ .nil ∧
      es = d ++ (k, v) :: rest := by
  induction es with
  | nil => exact Or.inl rfl
  | cons e es ih =>
    obtain ⟨k, v⟩ := e
    by_cases hv : v = .nil
    · rcases ih with h | ⟨d, k', v', rest, h, hv', hes⟩
      · exact Or.inl (by simp [List.dropWhile, hv, h])
      · exact Or.inr ⟨(k, v) :: d, k', v', rest, by simp [List.dropWhile, hv, h], hv', by
          simp [hes]⟩
    · exact Or.inr ⟨[], k, v, es, by simp [List.dropWhile, hv], hv, rfl⟩

theorem lua_next_neg_two (k : LuaVal) (r : Nat) (orig : List LuaVal) (H : List LuaTable) :
    lua_next (-2) { stack := k :: .table r :: orig, heap := H }
      = match (if k = .nil then some (heapGet H r) else entriesAfter (heapGet H r) k) with
        | some es =>
          match es.dropWhile (fun e => e.2 = .nil) with
          | (k', v') :: _ => .ok (1, { stack := v' :: k' :: .table r :: orig, heap := H })
          | [] => .ok (0, { stack := .table r :: orig, heap := H })
        | none => .error (.runtime "invalid key to next".toList
            { stack := k :: .table r :: orig, heap := H }) := by
  simp only [lua_next, index2value_neg_two, LuaState.tableAt]

/-- Where a traversal stands: the keys `pre` are behind it, the last of them
being the key `k` on the stack (none and nil at the start), the keys `post`
ahead; the entries ahead are found by `lua_next`. -/
theorem lua_next_position (t : LuaTable) (pre post : List LuaVal) (k : LuaVal)
    (hk : t.map Prod.fst = pre ++ post) (hnd : (pre ++ post).Nodup)
    (hnil : LuaVal.nil ∉ pre ++ post)
    (hpos : (k = .nil ∧ pre = []) ∨ ∃ pre', pre = pre' ++ [k]) :
    ∃ es, (if k = .nil then some t else entriesAfter t k) = some es ∧
      es.map Prod.fst = post ∧ ∀ e ∈ es, e ∈ t := by
  rcases hpos with ⟨hk0, hpre⟩ | ⟨pre', hpre⟩
  · subst hpre
    exact ⟨t, by simp [hk0], by simpa using hk, fun e he => he⟩
  · subst hpre
    have hkn : k ≠ .nil := by
      intro e
      apply hnil
      rw [e]
      simp
    rw [if_neg hkn]
    rw [List.append_assoc, List.singleton_append] at hk hnd
    exact entriesAfter_keys pre' post k t hk hnd

theorem luaw_to_string_key (E : Engine) (v : LuaVal) (ks : Text) (rest : List LuaVal)
    (H : List LuaTable) :
    luaw_to (luaw_to__string E) (-2) { stack := v :: .string ks :: rest, heap := H }
      = .ok (c_str ks, { stack := v :: .string ks :: rest, heap := H }) := by
  have hp : index2pos { stack := v :: .string ks :: rest, heap := H } (-2) = some 1 := by
    simp [index2pos]
  simp [luaw_to, luaw_to__string, lua_tostring, hp]

/-- The loop of `luaw_pairs` from a position of the traversal, on a table
whose keys the callback leaves as they are. -/
theorem luaw_pairs_loop_run {σ : Type} (fn : σ → LuaM σ) (Inv : σ → List LuaTable → Prop)
    (r : Nat) (orig : List LuaVal) (ks : List LuaVal) (hnd : ks.Nodup)
    (hnil : LuaVal.nil ∉ ks)
    (hkeys : ∀ s H, Inv s H → (heapGet H r).map Prod.fst = ks)
    (hbal : ∀ s H k v, Inv s H → (k, v) ∈ heapGet H r → v ≠ .nil →
      KeepsBalance Inv (fn s) v (k :: .table r :: orig) H) :
    ∀ (fuel : Nat) (pre post : List LuaVal) (k : LuaVal) (s : σ) (H : List LuaTable),
      ks = pre ++ post → post.length < fuel → Inv s H →
      ((k = .nil ∧ pre = []) ∨ ∃ pre', pre = pre' ++ [k]) →
      EndsBalanced Inv orig
        (luaw_pairs_loop fn fuel s { stack := k :: .table r :: orig, heap := H }) ∨
      ∃ s1 H1 k1 v1, Inv s1 H1 ∧ (k1, v1) ∈ heapGet H1 r ∧ v1 ≠ .nil ∧
        EndsRaised (fn s1) v1 (k1 :: .table r :: orig) H1
          (luaw_pairs_loop fn fuel s { stack := k :: .table r :: orig, heap := H }) := by
  intro fuel
  induction fuel with
  | zero => intro pre post k s H _ hfuel; simp at hfuel
  | succ fuel ih =>
    intro pre post k s H hks hfuel hinv hpos
    have hk := hkeys s H hinv
    rw [hks] at hk hnd hnil
    obtain ⟨es, hnext, hes, hmem⟩ := lua_next_position (heapGet H r) pre post k hk hnd hnil hpos
    rcases dropWhile_dead es with hdw | ⟨d, k', v', rest, hdw, hv', hsplit⟩
    · -- no live entry is left: the duplicate is popped
      refine Or.inl ⟨s, { stack := orig, heap := H }, ?_, rfl, hinv⟩
      simp only [luaw_pairs_loop, LuaM.bind_run, lua_next_neg_two, hnext, hdw]
      simp
    · have hin : (k', v') ∈ heapGet H r := hmem _ (by rw [hsplit]; simp)
      have hnx : lua_next (-2) { stack := k :: .table r :: orig, heap := H }
          = .ok (1, { stack := v' :: k' :: .table r :: orig, heap := H }) := by
        simp only [lua_next_neg_two, hnext, hdw]
      cases hrun : fn s { stack := v' :: k' :: .table r :: orig, heap := H } with
      | error e =>
        refine Or.inr ⟨s, H, k', v', hinv, hin, hv', e, hrun, ?_⟩
        simp only [luaw_pairs_loop, LuaM.bind_run, hnx]
        simp [hrun]
      | ok p =>
        obtain ⟨s1, L1⟩ := p
        obtain ⟨⟨x, hst⟩, hinv1⟩ := hbal s H k' v' hinv hin hv' s1 L1 hrun
        obtain ⟨st1, H1⟩ := L1
        simp only at hst hinv1
        subst hst
        have hstep : luaw_pairs_loop fn (fuel + 1) s { stack := k :: .table r :: orig, heap := H }
            = luaw_pairs_loop fn fuel s1 { stack := k' :: .table r :: orig, heap := H1 } := by
          simp only [luaw_pairs_loop, LuaM.bind_run, hnx]
          simp [hrun]
        rw [hstep]
        have hpost : post = d.map Prod.fst ++ k' :: rest.map Prod.fst := by
          rw [← hes, hsplit]
          simp
        refine ih (pre ++ d.map Prod.fst ++ [k']) (rest.map Prod.fst) k' s1 H1 ?_ ?_ hinv1
          (Or.inr ⟨pre ++ d.map Prod.fst, rfl⟩)
        · rw [hks, hpost]
          simp
        · rw [hpost] at hfuel
          simp only [List.length_append, List.length_cons, List.length_map] at hfuel ⊢
          omega

theorem luaw_pairs_run {σ : Type} (fn : σ → LuaM σ) (Inv : σ → List LuaTable → Prop)
    (L : LuaState) (index : Int) (r : Nat) (hi : index2value L index = some (.table r))
    (hwf : WellFormedTable (L.tableAt r)) (s0 : σ) (hinv : Inv s0 L.heap)
    (hkeys : ∀ s H, Inv s H → (heapGet H r).map Prod.fst = (L.tableAt r).map Prod.fst)
    (hbal : ∀ s H k v, Inv s H → (k, v) ∈ heapGet H r → v ≠ .nil →
      KeepsBalance Inv (fn s) v (k :: .table r :: L.stack) H) :
    EndsBalanced Inv L.stack (luaw_pairs index fn s0 L) ∨
    ∃ s H k v, Inv s H ∧ (k, v) ∈ heapGet H r ∧ v ≠ .nil ∧
      EndsRaised (fn s) v (k :: .table r :: L.stack) H (luaw_pairs index fn s0 L) := by
  obtain ⟨st, H⟩ := L
  have hrun : luaw_pairs index fn s0 { stack := st, heap := H }
      = luaw_pairs_loop fn ((heapGet H r).length + 1) s0
          { stack := .nil :: .table r :: st, heap := H } := by
    simp only [luaw_pairs, LuaM.bind_run, lua_pushvalue, hi, lua_pushnil, traversalBound,
      LuaState.tableAt]
  rw [hrun]
  have hnil : LuaVal.nil ∉ (heapGet H r).map Prod.fst := by
    intro h
    obtain ⟨e, he, hk⟩ := List.mem_map.mp h
    exact hwf.2 e he hk
  exact luaw_pairs_loop_run fn Inv r st ((heapGet H r).map Prod.fst) hwf.1 hnil hkeys hbal
    ((heapGet H r).length + 1) [] ((heapGet H r).map Prod.fst) .nil s0 H rfl (by simp) hinv
    (Or.inl ⟨rfl, rfl⟩)

/-- The loop of `luaw_spairs` is the loop of `luaw_pairs` with the callback
that calls `fn` at the text keys only. -/
theorem luaw_spairs_loop_eq {σ : Type} (E : Engine) (fn : Text → σ → LuaM σ) :
    ∀ (fuel : Nat) (s : σ),
      luaw_spairs_loop E fn fuel s
        = luaw_pairs_loop (fun s => do
            if (← lua_type (-2)) = .TSTRING then
              fn (← luaw_to (luaw_to__string E) (-2)) s
            else
              pure s) fuel s := by
  intro fuel
  induction fuel with
  | zero => intro s; rfl
  | succ fuel ih =>
    intro s
    simp only [luaw_spairs_loop, luaw_pairs_loop, ih]

theorem luaw_spairs_callback_text {σ : Type} (E : Engine) (fn : Text → σ → LuaM σ) (s : σ)
    (v : LuaVal) (ks : Text) (rest : List LuaVal) (H : List LuaTable) :
    (do
      if (← lua_type (-2)) = .TSTRING then
        fn (← luaw_to (luaw_to__string E) (-2)) s
      else
        pure s : LuaM σ) { stack := v :: .string ks :: rest, heap := H }
      = fn (c_str ks) s { stack := v :: .string ks :: rest, heap := H } := by
  simp [lua_type, LuaVal.type, luaw_to_string_key]

theorem luaw_spairs_callback_other {σ : Type} (E : Engine) (fn : Text → σ → LuaM σ) (s : σ)
    (v k : LuaVal) (rest : List LuaVal) (H : List LuaTable) (hk : k.type ≠ .TSTRING) :
    (do
      if (← lua_type (-2)) = .TSTRING then
        fn (← luaw_to (luaw_to__string E) (-2)) s
      else
        pure s : LuaM σ) { stack := v :: k :: rest, heap := H }
      = .ok (s, { stack := v :: k :: rest, heap := H }) := by
  simp [lua_type, hk]

theorem type_eq_TSTRING_iff (k : LuaVal) : k.type = .TSTRING ↔ ∃ ks, k = .string ks := by
  cases k <;> simp [LuaVal.type]

theorem luaw_spairs_run {σ : Type} (E : Engine) (fn : Text → σ → LuaM σ)
    (Inv : σ → List LuaTable → Prop) (L : LuaState) (index : Int) (r : Nat)
    (hi : index2value L index = some (.table r)) (hwf : WellFormedTable (L.tableAt r))
    (s0 : σ) (hinv : Inv s0 L.heap)
    (hkeys : ∀ s H, Inv s H → (heapGet H r).map Prod.fst = (L.tableAt r).map Prod.fst)
    (hbal : ∀ s H ks v, Inv s H → (.string ks, v) ∈ heapGet H r → v ≠ .nil →
      KeepsBalance Inv (fn (c_str ks) s) v (.string ks :: .table r :: L.stack) H) :
    EndsBalanced Inv L.stack (luaw_spairs E index fn s0 L) ∨
    ∃ s H ks v, Inv s H ∧ (.string ks, v) ∈ heapGet H r ∧ v ≠ .nil ∧
      EndsRaised (fn (c_str ks) s) v (.string ks :: .table r :: L.stack) H
        (luaw_spairs E index fn s0 L) := by
  have heq : luaw_spairs E index fn s0 L
      = luaw_pairs index (fun s => do
          if (← lua_type (-2)) = .TSTRING then
            fn (← luaw_to (luaw_to__string E) (-2)) s
          else
            pure s) s0 L := by
    simp only [luaw_spairs, luaw_pairs, luaw_spairs_loop_eq]
  rw [heq]
  have h := luaw_pairs_run (fun s => do
      if (← lua_type (-2)) = .TSTRING then
        fn (← luaw_to (luaw_to__string E) (-2)) s
      else
        pure s) Inv L index r hi hwf s0 hinv hkeys (by
    intro s H k v hs hin hv s' L' hrun
    by_cases hk : k.type = .TSTRING
    · obtain ⟨ks, rfl⟩ := (type_eq_TSTRING_iff k).mp hk
      beta_reduce at hrun
      rw [luaw_spairs_callback_text] at hrun
      exact hbal s H ks v hs hin hv s' L' hrun
    · beta_reduce at hrun
      rw [luaw_spairs_callback_other E fn s v k _ H hk] at hrun
      simp only [Except.ok.injEq, Prod.mk.injEq] at hrun
      obtain ⟨rfl, rfl⟩ := hrun
      exact ⟨⟨v, rfl⟩, hs⟩)
  rcases h with h | ⟨s, H, k, v, hs, hin, hv, e, hrun, hres⟩
  · exact Or.inl h
  · by_cases hk : k.type = .TSTRING
    · obtain ⟨ks, rfl⟩ := (type_eq_TSTRING_iff k).mp hk
      beta_reduce at hrun
      rw [luaw_spairs_callback_text] at hrun
      exact Or.inr ⟨s, H, ks, v, hs, hin, hv, e, hrun, hres⟩
    · beta_reduce at hrun
      rw [luaw_spairs_callback_other E fn s v k _ H hk] at hrun
      simp at hrun

/-- Assigning to a key that has a slot, nil included, leaves the keys of the
table and their order as they are: a callback may do so during a traversal. -/
theorem keys_rawset_of_key (t : LuaTable) (k v : LuaVal) (hk : k ∈ t.map Prod.fst) :
    (rawset t k v).map Prod.fst = t.map Prod.fst := by
  have hany : t.any (fun e => e.1 = k) = true := by
    obtain ⟨e, he, hek⟩ := List.mem_map.mp hk
    exact List.any_eq_true.mpr ⟨e, he, by simp [hek]⟩
  unfold rawset
  rw [if_pos hany]
  clear hany hk
  induction t with
  | nil => rfl
  | cons e t ih =>
    obtain ⟨k', v'⟩ := e
    by_cases h : k' = k
    · simp [rawupdate, h]
    · simp [rawupdate, h, ih]

/-- Tables stay well formed under the writes of the API, whose keys are never
nil. -/
theorem wellFormed_rawset (t : LuaTable) (k v : LuaVal) (hwf : WellFormedTable t)
    (hk : k ≠ .nil) : WellFormedTable (rawset t k v) := by
  by_cases hmem : k ∈ t.map Prod.fst
  · refine ⟨by rw [keys_rawset_of_key t k v hmem]; exact hwf.1, ?_⟩
    intro e he
    have hin : e.1 ∈ (rawset t k v).map Prod.fst := List.mem_map.mpr ⟨e, he, rfl⟩
    rw [keys_rawset_of_key t k v hmem] at hin
    obtain ⟨e', he', hek⟩ := List.mem_map.mp hin
    rw [← hek]
    exact hwf.2 e' he'
  · have hany : t.any (fun e => e.1 = k) = false := by
      rw [Bool.eq_false_iff]
      intro h
      obtain ⟨e, he, hek⟩ := List.any_eq_true.mp h
      exact hmem (List.mem_map.mpr ⟨e, he, by simpa using hek⟩)
    unfold rawset
    simp only [hany, Bool.false_eq_true, if_false]
    by_cases hv : v = .nil
    · rw [if_pos hv]
      exact hwf
    · rw [if_neg hv]
      refine ⟨?_, ?_⟩
      · simp only [List.map_cons, List.nodup_cons]
        exact ⟨hmem, hwf.1⟩
      · intro e he
        rcases List.mem_cons.mp he with rfl | he
        · exact hk
        · exact hwf.2 e he

/-- C14, refuted as stated: a callback that raises at the first entry without
touching the stack.  The error leaves each helper with the duplicated table
and the slots of the entry still on the stack: two slots above the stack of
before the call for `luaw_ipairs`, three for `luaw_spairs` and `luaw_pairs`. -/
theorem luaw_iteration_error_leaks :
    luaw_ipairs 1 (fun _ (_ : Unit) => luaL_error "stop".toList) () mixedExample
      = .error (.runtime "stop".toList
          { mixedExample with stack := [.boolean true, .table 0, .table 0] }) ∧
    luaw_spairs decimalEngine 1 (fun _ (_ : Unit) => luaL_error "stop".toList) () mixedExample
      = .error (.runtime "stop".toList
          { mixedExample with
            stack := [.boolean false, .string "k".toList, .table 0, .table 0] }) ∧
    luaw_pairs 1 (fun (_ : Unit) => luaL_error "stop".toList) () mixedExample
      = .error (.runtime "stop".toList
          { mixedExample with
            stack := [.boolean true, .integer 1, .table 0, .table 0] }) := by
  decide

/-- C14, amended.  The slot at a valid index holds a table, `Inv` is any
property of host state and heap that holds at the call, and the callback keeps
the balance at the entries: whenever it returns from an entry, started in
`Inv` with the value of the entry on top of the duplicated table (`luaw_ipairs`)
or of the key and the duplicated table (`luaw_spairs`, `luaw_pairs`), the slots
below the value are as it found them, one slot is above them, and `Inv` holds
again.  For `luaw_spairs` and `luaw_pairs` the table is well formed and `Inv`
keeps its keys: the callback may assign to the fields the table has, and clear
them, but adds none.  Then the helper ends in one of two ways.  Either it
returns with the stack of before the call: the duplicate and the slots of
every entry are removed.  Or the callback raised at an entry, and what the
helper ends with is that very error, raised on the stack of before the call
with the duplicate and the slots of that entry on top: the helper removes
nothing.  (`luaw_spairs` calls back at the text keys only, with the key as a
C string.) -/
theorem luaw_iteration_balanced (E : Engine) (L : LuaState) (index : Int) (r : Nat)
    (hi : index2value L index = some (.table r)) :
    (∀ (σ : Type) (Inv : σ → List LuaTable → Prop) (fn : Int → σ → LuaM σ) (s0 : σ),
      Inv s0 L.heap →
      (∀ i s H, Inv s H → 1 ≤ i → i ≤ (rawlen (L.tableAt r) : Int) →
        KeepsBalance Inv (fn i s) (rawget (heapGet H r) (.integer i))
          (.table r :: L.stack) H) →
      EndsBalanced Inv L.stack (luaw_ipairs index fn s0 L) ∨
      ∃ i s H, Inv s H ∧ 1 ≤ i ∧ i ≤ (rawlen (L.tableAt r) : Int) ∧
        EndsRaised (fn i s) (rawget (heapGet H r) (.integer i)) (.table r :: L.stack) H
          (luaw_ipairs index fn s0 L)) ∧
    (∀ (σ : Type) (Inv : σ → List LuaTable → Prop) (fn : Text → σ → LuaM σ) (s0 : σ),
      WellFormedTable (L.tableAt r) → Inv s0 L.heap →
      (∀ s H, Inv s H → (heapGet H r).map Prod.fst = (L.tableAt r).map Prod.fst) →
      (∀ s H ks v, Inv s H → (.string ks, v) ∈ heapGet H r → v ≠ .nil →
        KeepsBalance Inv (fn (c_str ks) s) v (.string ks :: .table r :: L.stack) H) →
      EndsBalanced Inv L.stack (luaw_spairs E index fn s0 L) ∨
      ∃ s H ks v, Inv s H ∧ (.string ks, v) ∈ heapGet H r ∧ v ≠ .nil ∧
        EndsRaised (fn (c_str ks) s) v (.string ks :: .table r :: L.stack) H
          (luaw_spairs E index fn s0 L)) ∧
    (∀ (σ : Type) (Inv : σ → List LuaTable → Prop) (fn : σ → LuaM σ) (s0 : σ),
      WellFormedTable (L.tableAt r) → Inv s0 L.heap →
      (∀ s H, Inv s H → (heapGet H r).map Prod.fst = (L.tableAt r).map Prod.fst) →
      (∀ s H k v, Inv s H → (k, v) ∈ heapGet H r → v ≠ .nil →
        KeepsBalance Inv (fn s) v (k :: .table r :: L.stack) H) →
      EndsBalanced Inv L.stack (luaw_pairs index fn s0 L) ∨
      ∃ s H k v, Inv s H ∧ (k, v) ∈ heapGet H r ∧ v ≠ .nil ∧
        EndsRaised (fn s) v (k :: .table r :: L.stack) H (luaw_pairs index fn s0 L)) :=
  ⟨fun _ Inv fn s0 hinv hbal => luaw_ipairs_run fn Inv L index r hi s0 hinv hbal,
   fun _ Inv fn s0 hwf hinv hkeys hbal =>
     luaw_spairs_run E fn Inv L index r hi hwf s0 hinv hkeys hbal,
   fun _ Inv fn s0 hwf hinv hkeys hbal =>
     luaw_pairs_run fn Inv L index r hi hwf s0 hinv hkeys hbal⟩

/-- What `countAndAssign` does at an entry of the table of `mixedExample`,
before or after the field `k` was assigned. -/
theorem countAndAssign_entry (n : Nat) (H : List LuaTable) (k v : LuaVal)
    (hH : H = mixedExample.heap ∨ H = mixedAssigned) :
    countAndAssign n { stack := v :: k :: .table 0 :: mixedExample.stack, heap := H }
      = .ok (n + 1, { stack := v :: k :: .table 0 :: mixedExample.stack,
                      heap := mixedAssigned }) := by
  rcases hH with rfl | rfl <;> rfl

/-- Witness of `luaw_iteration_balanced`: `luaw_pairs` on `{true, k = false}`
with a callback that assigns to the field `k` of the traversed table at each
entry ends with the stack of before the call. -/
theorem luaw_iteration_balanced_witness :
    EndsBalanced (fun (_ : Nat) H => H = mixedExample.heap ∨ H = mixedAssigned)
      mixedExample.stack (luaw_pairs 1 countAndAssign 0 mixedExample) :=
  ((luaw_iteration_balanced decimalEngine mixedExample 1 0 (by decide)).2.2 Nat
    (fun _ H => H = mixedExample.heap ∨ H = mixedAssigned) countAndAssign 0
    ⟨by decide, by decide⟩ (Or.inl rfl)
    (fun _ H hH => by rcases hH with rfl | rfl <;> rfl)
    (fun s H k v hH _ _ s' L' hrun => by
      rw [countAndAssign_entry s H k v hH] at hrun
      simp only [Except.ok.injEq, Prod.mk.injEq] at hrun
      obtain ⟨rfl, rfl⟩ := hrun
      exact ⟨⟨v, rfl⟩, Or.inr rfl⟩)).resolve_right
    (fun ⟨s, H, k, v, hH, _, _, e, herr, _⟩ => by
      rw [countAndAssign_entry s H k v hH] at herr
      simp at herr)

/-- The traversal of the witness visits both entries and leaves `k` assigned. -/
theorem luaw_pairs_assigning :
    luaw_pairs 1 countAndAssign 0 mixedExample
      = .ok (2, { stack := mixedExample.stack, heap := mixedAssigned }) := by
  decide

/-- A callback may clear a field during the traversal: cleared at the first
entry, the field `k` is not visited, and the traversal ends balanced. -/
theorem luaw_pairs_clearing :
    luaw_pairs 1 countAndClear 0 mixedExample
      = .ok (1, { stack := mixedExample.stack,
                  heap := [[(.integer 1, .boolean true), (.string "k".toList, .nil)]] }) := by
  decide

/-- Counting the entries of `{true, k = false}`. -/
theorem luaw_pairs_counts :
    luaw_pairs 1 (fun (n : Nat) => (pure (n + 1) : LuaM Nat)) 0 mixedExample
      = .ok (2, mixedExample) := by
  decide

/-- A run that returns does not end raised. -/
theorem EndsRaised.not_of_returns {σ : Type} {run : LuaM σ} {v : LuaVal}
    {below : List LuaVal} {H : List LuaTable} {res : Except LuaError (σ × LuaState)}
    (h : EndsRaised run v below H res)
    (hret : ∃ p, run { stack := v :: below, heap := H } = .ok p) : False := by
  obtain ⟨e, he, _⟩ := h
  obtain ⟨p, hp⟩ := hret
  rw [hp] at he
  simp at he

/-- Normal completion: with a callback that moreover returns at every entry,
each helper returns with the stack of before the call. -/
theorem luaw_iteration_completes (E : Engine) (L : LuaState) (index : Int) (r : Nat)
    (hi : index2value L index = some (.table r)) :
    (∀ (σ : Type) (Inv : σ → List LuaTable → Prop) (fn : Int → σ → LuaM σ) (s0 : σ),
      Inv s0 L.heap →
      (∀ i s H, Inv s H → 1 ≤ i → i ≤ (rawlen (L.tableAt r) : Int) →
        KeepsBalance Inv (fn i s) (rawget (heapGet H r) (.integer i))
          (.table r :: L.stack) H ∧
        ∃ p, fn i s { stack := rawget (heapGet H r) (.integer i) :: .table r :: L.stack,
                      heap := H } = .ok p) →
      EndsBalanced Inv L.stack (luaw_ipairs index fn s0 L)) ∧
    (∀ (σ : Type) (Inv : σ → List LuaTable → Prop) (fn : Text → σ → LuaM σ) (s0 : σ),
      WellFormedTable (L.tableAt r) → Inv s0 L.heap →
      (∀ s H, Inv s H → (heapGet H r).map Prod.fst = (L.tableAt r).map Prod.fst) →
      (∀ s H ks v, Inv s H → (.string ks, v) ∈ heapGet H r → v ≠ .nil →
        KeepsBalance Inv (fn (c_str ks) s) v (.string ks :: .table r :: L.stack) H ∧
        ∃ p, fn (c_str ks) s { stack := v :: .string ks :: .table r :: L.stack, heap := H }
          = .ok p) →
      EndsBalanced Inv L.stack (luaw_spairs E index fn s0 L)) ∧
    (∀ (σ : Type) (Inv : σ → List LuaTable → Prop) (fn : σ → LuaM σ) (s0 : σ),
      WellFormedTable (L.tableAt r) → Inv s0 L.heap →
      (∀ s H, Inv s H → (heapGet H r).map Prod.fst = (L.tableAt r).map Prod.fst) →
      (∀ s H k v, Inv s H → (k, v) ∈ heapGet H r → v ≠ .nil →
        KeepsBalance Inv (fn s) v (k :: .table r :: L.stack) H ∧
        ∃ p, fn s { stack := v :: k :: .table r :: L.stack, heap := H } = .ok p) →
      EndsBalanced Inv L.stack (luaw_pairs index fn s0 L)) := by
  refine ⟨?_, ?_, ?_⟩
  · intro σ Inv fn s0 hinv h
    rcases luaw_ipairs_run fn Inv L index r hi s0 hinv
      (fun i s H hs h1 h2 => (h i s H hs h1 h2).1) with hb | ⟨i, s, H, hs, h1, h2, hr⟩
    · exact hb
    · exact (hr.not_of_returns (h i s H hs h1 h2).2).elim
  · intro σ Inv fn s0 hwf hinv hkeys h
    rcases luaw_spairs_run E fn Inv L index r hi hwf s0 hinv hkeys
      (fun s H ks v hs hin hv => (h s H ks v hs hin hv).1) with hb | ⟨s, H, ks, v, hs, hin, hv, hr⟩
    · exact hb
    · exact (hr.not_of_returns (h s H ks v hs hin hv).2).elim
  · intro σ Inv fn s0 hwf hinv hkeys h
    rcases luaw_pairs_run fn Inv L index r hi hwf s0 hinv hkeys
      (fun s H k v hs hin hv => (h s H k v hs hin hv).1) with hb | ⟨s, H, k, v, hs, hin, hv, hr⟩
    · exact hb
    · exact (hr.not_of_returns (h s H k v hs hin hv).2).elim

/-- A callback that reads the entry as text keeps the balance at every entry,
although it may leave another value in the slot than it found: a number is
turned into a string where it lies. -/
theorem appendText_keepsBalance (E : Engine) (i : Int) (acc : Text) (v : LuaVal)
    (below : List LuaVal) (H : List LuaTable) :
    KeepsBalance (fun _ H' => H' = H) (appendText E i acc) v below H := by
  intro s' L' hrun
  cases v <;>
    simp [appendText, luaw_to, luaw_to__string, lua_tostring, LuaState.setSlot, apiError]
      at hrun <;>
    obtain ⟨_, rfl⟩ := hrun <;> exact ⟨⟨_, rfl⟩, rfl⟩

/-- Reading the entries of `{10, 20}` as text with `luaw_ipairs`. -/
theorem luaw_ipairs_reading :
    luaw_ipairs 1 (appendText decimalEngine) [] numbersExample
      = .ok ("1020".toList, numbersExample) := by
  decide

/-! ## Dumper -/

theorem luaw_dump_table_congr (E : Engine) (I : Interp)
    (f g : Int → Bool → Nat → Nat → LuaM Text) (index : Int) (pretty_print : Bool)
    (max_depth current_depth : Nat)
    (h : current_depth ≤ max_depth →
      f (-1) pretty_print max_depth current_depth = g (-1) pretty_print max_depth current_depth) :
    luaw_dump_table E I f index pretty_print max_depth current_depth
      = luaw_dump_table E I g index pretty_print max_depth current_depth := by
  by_cases hc : current_depth ≤ max_depth
  · unfold luaw_dump_table
    rw [h hc]
  · have hgt : current_depth > max_depth := by omega
    unfold luaw_dump_table
    simp only [if_pos hgt]

theorem luaw_dump_rec_fuel (E : Engine) (I : Interp) (S : StdLib) (pretty_print : Bool)
    (max_depth : Nat) :
    ∀ (n m : Nat) (index : Int) (current_depth : Nat),
      max_depth - current_depth + 1 ≤ n → max_depth - current_depth + 1 ≤ m →
      luaw_dump_rec E I S n index pretty_print max_depth current_depth
        = luaw_dump_rec E I S m index pretty_print max_depth current_depth := by
  intro n
  induction n with
  | zero => intro m index cd hn; omega
  | succ n ih =>
    intro m index cd hn hm
    cases m with
    | zero => omega
    | succ m =>
      have hc := luaw_dump_table_congr E I (luaw_dump_rec E I S n) (luaw_dump_rec E I S m) index
        pretty_print max_depth (cd + 1)
        (fun hle => ih m (-1) (cd + 1) (by omega) (by omega))
      simp only [luaw_dump_rec, hc]

/-- With fuel for the levels `luaw_dump` can still descend, the bound plays no
part: any larger bound gives the same outcome. -/
theorem luaw_dump_fuel (E : Engine) (I : Interp) (S : StdLib) (index : Int)
    (pretty_print : Bool) (max_depth current_depth fuel : Nat)
    (h : max_depth - current_depth + 1 ≤ fuel) :
    luaw_dump_rec E I S fuel index pretty_print max_depth current_depth
      = luaw_dump E I S index pretty_print max_depth current_depth :=
  luaw_dump_rec_fuel E I S pretty_print max_depth fuel (max_depth - current_depth + 1) index
    current_depth h (le_refl _)

/-- A table reached at a depth that is already `max_depth` is rendered as the
placeholder, and nothing of it is traversed: only its text is asked for. -/
theorem luaw_dump_cut (E : Engine) (I : Interp) (S : StdLib) (L L' : LuaState) (index : Int)
    (r : Nat) (value : Text) (pretty_print : Bool) (max_depth current_depth : Nat)
    (hi : index2value L index = some (.table r))
    (hs : luaw_to_string E I index L = .ok (value, L'))
    (hp : ("table: ".toList).isPrefixOf value = true) (h : max_depth ≤ current_depth) :
    luaw_dump E I S index pretty_print max_depth current_depth L
      = .ok ("\x7b...\x7d".toList, L') := by
  have hf : max_depth - current_depth + 1 = 1 := by omega
  have hgt : current_depth + 1 > max_depth := by omega
  simp only [luaw_dump, hf, luaw_dump_rec, LuaM.bind_run, lua_type, hi, LuaVal.type,
    luaw_dump_table, hs, hp, if_pos hgt]
  rfl

/-- The cut at work on the top slot of `dumpPositiveExample`: with
`max_depth = 0` the table `{false}` itself is the placeholder. -/
theorem luaw_dump_cut_example :
    luaw_dump decimalEngine demoInterp demoStd (-1) false 0 0 dumpPositiveExample
      = .ok ("\x7b...\x7d".toList, dumpPositiveExample) :=
  luaw_dump_cut decimalEngine demoInterp demoStd dumpPositiveExample dumpPositiveExample (-1) 2
    "table: 2".toList false 0 0 (by decide) (by decide) (by decide) (le_refl 0)

/-- The table `{true, {false}}` at index -1 with `max_depth = 1`: the entries
of the outer table are rendered, the table inside it is the placeholder, and
the state is left as it was. -/
theorem luaw_dump_nested :
    luaw_dump decimalEngine demoInterp demoStd (-1) false 1 0 dumpNestedExample
      = .ok ("\x7b true, \x7b...\x7d \x7d".toList, dumpNestedExample) := by
  decide!

/-- The table `t = {true, t, k = t}` at index -1: with `max_depth = 1` both
occurrences of `t` inside it are the placeholder, with `max_depth = 2` they
are rendered once more and the occurrences inside them are the placeholder. -/
theorem luaw_dump_cyclic :
    luaw_dump decimalEngine demoInterp demoStd (-1) false 1 0 dumpCyclicExample
      = .ok ("\x7b true, \x7b...\x7d, k=\x7b...\x7d \x7d".toList, dumpCyclicExample) ∧
    luaw_dump decimalEngine demoInterp demoStd (-1) false 2 0 dumpCyclicExample
      = .ok (("\x7b true, \x7b true, \x7b...\x7d, k=\x7b...\x7d \x7d, " ++
          "k=\x7b true, \x7b...\x7d, k=\x7b...\x7d \x7d \x7d").toList, dumpCyclicExample) := by
  decide!

/-- At index 1 the text asked of the engine is that of index 0, which is no
index at all: the dump of a table alone on the stack by its positive index
leaves the defined behaviour of the engine. -/
theorem luaw_dump_index_one :
    luaw_dump decimalEngine demoInterp demoStd 1 false 1 0 dumpNestedExample
      = .error (.api "lua_pushvalue: invalid index".toList) := by
  decide

/-- C15, the code at the failing input: with `true` at index 1 and the table
`{false}` at index 2, `luaw_dump(L, 2, false, 1)` returns the text `true` of the
slot below, where the entries of the table were to be rendered; the same slot
named by its negative index -1 is rendered as `{ false }`. -/
theorem luaw_dump_positive_index :
    luaw_dump decimalEngine demoInterp demoStd 2 false 1 0 dumpPositiveExample
      = .ok ("true".toList, dumpPositiveExample) ∧
    luaw_dump decimalEngine demoInterp demoStd (-1) false 1 0 dumpPositiveExample
      = .ok ("\x7b false \x7d".toList, dumpPositiveExample) := by
  decide

theorem luaw_pcall_one_returns (E : Engine) (I : Interp) (f v w : LuaVal) (orig : List LuaVal)
    (H H' : List LuaTable) (hcall : callValue I f [v] H = .returns [w] H') :
    luaw_pcall E I 1 1 { stack := v :: f :: orig, heap := H }
      = .ok ((), { stack := w :: orig, heap := H' }) := by
  have hlen : (((v :: f :: orig).length : Nat) : Int) - 1 = (orig.length : Int) + 1 := by
    simp only [List.length_cons]
    push_cast
    ring
  have hins : lua_insert ((orig.length : Int) + 1)
      { stack := .function luaw_error_handler_id :: v :: f :: orig, heap := H }
      = .ok ((), { stack := v :: f :: .function luaw_error_handler_id :: orig, heap := H }) := by
    have hp := index2pos_pos (.function luaw_error_handler_id :: v :: f :: orig) H 2 (by simp)
    have he : ((.function luaw_error_handler_id :: v :: f :: orig : List LuaVal).length : Int)
        - ((2 : Nat) : Int) = (orig.length : Int) + 1 := by
      simp only [List.length_cons]
      push_cast
      ring
    rw [he] at hp
    simp [lua_insert, hp]
  have hpc : lua_pcall I 1 1 ((orig.length : Int) + 1)
      { stack := v :: f :: .function luaw_error_handler_id :: orig, heap := H }
      = .ok (.LUA_OK, { stack := w :: .function luaw_error_handler_id :: orig, heap := H' }) := by
    simp [lua_pcall, hcall, adjustResults]
  have hrm : lua_remove ((orig.length : Int) + 1)
      { stack := w :: .function luaw_error_handler_id :: orig, heap := H' }
      = .ok ((), { stack := w :: orig, heap := H' }) := by
    have hp := index2pos_pos (w :: .function luaw_error_handler_id :: orig) H' 1 (by simp)
    have he : ((w :: .function luaw_error_handler_id :: orig : List LuaVal).length : Int)
        - ((1 : Nat) : Int) = (orig.length : Int) + 1 := by
      simp only [List.length_cons]
      push_cast
      ring
    rw [he] at hp
    simp [lua_remove, hp]
  simp only [luaw_pcall, LuaM.bind_run, lua_gettop, hlen, lua_pushcfunction, hins, hpc, hrm]
  simp

/-- On the top slot `luaw_to_string` returns the text `tostring` gives and
leaves the state as it found it. -/
theorem luaw_to_string_top (E : Engine) (I : Interp) (H : List LuaTable) (v : LuaVal)
    (st : List LuaVal) (t : Text)
    (hcall : callValue I (rawget (heapGet H I.globals) (.string "tostring".toList)) [v] H
      = .returns [.string t] H) :
    luaw_to_string E I (-1) { stack := v :: st, heap := H }
      = .ok (c_str t, { stack := v :: st, heap := H }) := by
  have hpc := luaw_pcall_one_returns E I _ v (.string t) (v :: st) H H hcall
  have hpv : lua_pushvalue (-1 - 1)
      { stack := rawget (heapGet H I.globals) (.string "tostring".toList) :: v :: st, heap := H }
      = .ok ((), { stack := v :: rawget (heapGet H I.globals) (.string "tostring".toList)
          :: v :: st, heap := H }) := by
    have h2 : ((-1 : Int) - 1) = -2 := by norm_num
    rw [h2]
    simp [lua_pushvalue]
  simp only [luaw_to_string, LuaM.bind_run, lua_getglobal, hpv, hpc]
  simp [luaw_pop, luaw_to, luaw_to__string, lua_tostring]

theorem luaw_ipairs_top_pure {σ : Type} (fn : Int → σ → LuaM σ) (r : Nat)
    (st : List LuaVal) (H : List LuaTable)
    (hfn : ∀ i s, ∃ s',
      fn i s { stack := rawget (heapGet H r) (.integer i) :: .table r :: .table r :: st,
               heap := H }
        = .ok (s', { stack := rawget (heapGet H r) (.integer i) :: .table r :: .table r :: st,
                     heap := H })) (s : σ) :
    ∃ s', luaw_ipairs (-1) fn s { stack := .table r :: st, heap := H }
      = .ok (s', { stack := .table r :: st, heap := H }) := by
  have h := luaw_ipairs_run fn (fun _ H' => H' = H) { stack := .table r :: st, heap := H } (-1) r
    (index2value_neg_one _ _ _) s rfl (by
      intro i s1 H1 hH1 _ _ s' L' hrun
      subst hH1
      obtain ⟨s2, h2⟩ := hfn i s1
      rw [h2] at hrun
      simp only [Except.ok.injEq, Prod.mk.injEq] at hrun
      obtain ⟨rfl, rfl⟩ := hrun
      exact ⟨⟨_, rfl⟩, rfl⟩)
  rcases h with ⟨s', L', hres, hst, hheap⟩ | ⟨i, s1, H1, hH1, _, _, e, herr, _⟩
  · obtain ⟨st', H'⟩ := L'
    simp only at hst hheap
    subst hst hheap
    exact ⟨s', hres⟩
  · subst hH1
    obtain ⟨s2, h2⟩ := hfn i s1
    rw [h2] at herr
    simp at herr

theorem luaw_spairs_top_pure {σ : Type} (E : Engine) (fn : Text → σ → LuaM σ) (r : Nat)
    (st : List LuaVal) (H : List LuaTable) (hwf : WellFormedTable (heapGet H r))
    (hfn : ∀ key s k v, (k, v) ∈ heapGet H r → ∃ s',
      fn key s { stack := v :: k :: .table r :: .table r :: st, heap := H }
        = .ok (s', { stack := v :: k :: .table r :: .table r :: st, heap := H })) (s : σ) :
    ∃ s', luaw_spairs E (-1) fn s { stack := .table r :: st, heap := H }
      = .ok (s', { stack := .table r :: st, heap := H }) := by
  have h := luaw_spairs_run E fn (fun _ H' => H' = H) { stack := .table r :: st, heap := H }
    (-1) r (index2value_neg_one _ _ _) hwf s rfl (by
      intro s1 H1 hH1
      subst hH1
      rfl) (by
      intro s1 H1 ks v hH1 hin _ s' L' hrun
      subst hH1
      obtain ⟨s2, h2⟩ := hfn (c_str ks) s1 (.string ks) v hin
      rw [h2] at hrun
      simp only [Except.ok.injEq, Prod.mk.injEq] at hrun
      obtain ⟨rfl, rfl⟩ := hrun
      exact ⟨⟨_, rfl⟩, rfl⟩)
  rcases h with ⟨s', L', hres, hst, hheap⟩ | ⟨s1, H1, ks, v, hH1, hin, _, e, herr, _⟩
  · obtain ⟨st', H'⟩ := L'
    simp only at hst hheap
    subst hst hheap
    exact ⟨s', hres⟩
  · subst hH1
    obtain ⟨s2, h2⟩ := hfn (c_str ks) s1 (.string ks) v hin
    rw [h2] at herr
    simp at herr

theorem rawget_dumpable (t : LuaTable) (k : LuaVal) (h : ∀ e ∈ t, DumpableValue e.2) :
    DumpableValue (rawget t k) := by
  induction t with
  | nil => simp [rawget, DumpableValue]
  | cons e t ih =>
    obtain ⟨k', v'⟩ := e
    by_cases hk : k' = k
    · simpa [rawget, hk] using h (k', v') (by simp)
    · simp only [rawget, if_neg hk]
      exact ih (fun e he => h e (by simp [he]))

theorem Returns.pure {α : Type} (a : α) (L : LuaState) : Returns (pure a : LuaM α) L :=
  ⟨a, rfl⟩

theorem Returns.bind {α β : Type} {m : LuaM α} {k : α → LuaM β} {L : LuaState}
    (hm : Returns m L) (hk : ∀ a, Returns (k a) L) : Returns (m >>= k) L := by
  obtain ⟨a, ha⟩ := hm
  obtain ⟨b, hb⟩ := hk a
  exact ⟨b, by simp [LuaM.bind_run, ha, hb]⟩

theorem Returns.ite {α : Type} {c : Prop} [Decidable c] {a b : LuaM α} {L : LuaState}
    (ha : Returns a L) (hb : Returns b L) : Returns (if c then a else b) L := by
  split
  · exact ha
  · exact hb

theorem luaw_dump_table_returns (E : Engine) (I : Interp) (H : List LuaTable)
    (hts : ToStringQuiet I H) (hH : DumpableHeap H)
    (f : Int → Bool → Nat → Nat → LuaM Text) (pretty_print : Bool)
    (max_depth current_depth : Nat) (r : Nat) (st : List LuaVal)
    (hf : current_depth ≤ max_depth → ∀ x rest, DumpableValue x →
      Returns (f (-1) pretty_print max_depth current_depth) { stack := x :: rest, heap := H }) :
    Returns (luaw_dump_table E I f (-1) pretty_print max_depth current_depth)
      { stack := .table r :: st, heap := H } := by
  obtain ⟨tx, htx⟩ := hts (.table r)
  have hto : Returns (luaw_to_string E I (-1)) { stack := .table r :: st, heap := H } :=
    ⟨_, luaw_to_string_top E I H (.table r) st tx htx⟩
  unfold luaw_dump_table
  refine Returns.bind hto (fun value => ?_)
  refine Returns.ite (Returns.pure _ _) ?_
  refine Returns.bind (Returns.pure _ _) (fun _ => ?_)
  dsimp only
  by_cases hgt : current_depth > max_depth
  · rw [if_pos hgt]
    exact Returns.pure _ _
  rw [if_neg hgt]
  have hle : current_depth ≤ max_depth := by omega
  refine Returns.bind (Returns.pure _ _) (fun _ => ?_)
  refine Returns.bind (luaw_ipairs_top_pure _ r st H (fun i s => ?_) _) (fun p => ?_)
  · exact Returns.bind (hf hle _ _ (rawget_dumpable _ _ (hH r).2)) (fun d => Returns.pure _ _)
  obtain ⟨ss, found⟩ := p
  dsimp only
  refine Returns.bind (luaw_spairs_top_pure E _ r st H (hH r).1 (fun key s k v hmem => ?_) _)
    (fun p => ?_)
  · exact Returns.bind (hf hle _ _ ((hH r).2 (k, v) hmem)) (fun d => Returns.pure _ _)
  obtain ⟨ss, found, has_non_numeric_key⟩ := p
  dsimp only
  exact Returns.ite (Returns.ite (Returns.pure _ _) (Returns.pure _ _)) (Returns.pure _ _)

theorem Returns.bind_of_eq {α β : Type} {m : LuaM α} {k : α → LuaM β} {L : LuaState} (a : α)
    (hm : m L = .ok (a, L)) (hk : Returns (k a) L) : Returns (m >>= k) L := by
  obtain ⟨b, hb⟩ := hk
  exact ⟨b, by simp [LuaM.bind_run, hm, hb]⟩

theorem luaw_dump_number_returns (S : StdLib) (q : ℚ) (hq : DumpableNumber q) (L : LuaState) :
    Returns (
      let diff := |q - (roundHalfAway q : ℚ)|
      if diff < 1 / 1000000 then
        match truncToInt q with
        | some i => (pure (toString i).toList : LuaM Text)
        | none => apiError "conversion of a double outside the range of int"
      else
        pure (S.to_string_double q)) L := by
  dsimp only
  by_cases hd : |q - (roundHalfAway q : ℚ)| < 1 / 1000000
  · rw [if_pos hd]
    obtain ⟨i, hi⟩ := Option.isSome_iff_exists.mp (hq hd)
    rw [hi]
    exact Returns.pure _ _
  · rw [if_neg hd]
    exact Returns.pure _ _

/-- With fuel for the levels it can descend, `luaw_dump_rec` returns on the
top slot and leaves the state as it found it. -/
theorem luaw_dump_rec_returns (E : Engine) (I : Interp) (S : StdLib) (H : List LuaTable)
    (hts : ToStringQuiet I H) (hH : DumpableHeap H) (pretty_print : Bool) (max_depth : Nat) :
    ∀ (fuel current_depth : Nat) (v : LuaVal) (st : List LuaVal),
      max_depth - current_depth + 1 ≤ fuel → DumpableValue v →
      Returns (luaw_dump_rec E I S fuel (-1) pretty_print max_depth current_depth)
        { stack := v :: st, heap := H } := by
  intro fuel
  induction fuel with
  | zero => intro cd v st h; omega
  | succ fuel ih =>
    intro cd v st hfuel hv
    unfold luaw_dump_rec
    refine Returns.bind_of_eq v.type (lua_type_top v st H) ?_
    cases v with
    | nil => exact Returns.pure _ _
    | boolean b =>
      exact Returns.bind_of_eq b (by simp [lua_toboolean]) (Returns.pure _ _)
    | integer n =>
      exact Returns.bind_of_eq (n : ℚ) (by simp [lua_tonumber, tonumber?])
        (luaw_dump_number_returns S n hv _)
    | number q =>
      exact Returns.bind_of_eq q (by simp [lua_tonumber, tonumber?])
        (luaw_dump_number_returns S q hv _)
    | string s =>
      exact Returns.bind_of_eq (some s) (by simp [lua_tostring]) (Returns.pure _ _)
    | table r =>
      exact luaw_dump_table_returns E I H hts hH _ pretty_print max_depth (cd + 1) r st
        (fun hle x rest hx => ih (cd + 1) x rest (by omega) hx)
    | function id => exact Returns.pure _ _
    | userdata id =>
      obtain ⟨tx, htx⟩ := hts (.userdata id)
      exact Returns.bind ⟨_, luaw_to_string_top E I H (.userdata id) st tx htx⟩
        (fun _ => Returns.pure _ _)
    | lightuserdata p =>
      exact Returns.bind_of_eq p (by simp [lua_touserdata]) (Returns.pure _ _)
    | thread id => exact Returns.pure _ _

/-- The dump of the top slot returns, for every value, every `max_depth` and
every heap of well-formed tables (a table may contain itself), and leaves
stack and heap as it found them. -/
theorem luaw_dump_returns (E : Engine) (I : Interp) (S : StdLib) (H : List LuaTable)
    (hts : ToStringQuiet I H) (hH : DumpableHeap H) (v : LuaVal) (st : List LuaVal)
    (hv : DumpableValue v) (pretty_print : Bool) (max_depth current_depth : Nat) :
    ∃ t, luaw_dump E I S (-1) pretty_print max_depth current_depth { stack := v :: st, heap := H }
      = .ok (t, { stack := v :: st, heap := H }) :=
  luaw_dump_rec_returns E I S H hts hH pretty_print max_depth
    (max_depth - current_depth + 1) current_depth v st (le_refl _) hv

/-- The table `t = {true, t, k = t}` is dumped at every `max_depth`. -/
theorem luaw_dump_cyclic_returns (pretty_print : Bool) (max_depth : Nat) :
    ∃ t, luaw_dump decimalEngine demoInterp demoStd (-1) pretty_print max_depth 0
        dumpCyclicExample = .ok (t, dumpCyclicExample) := by
  refine luaw_dump_returns decimalEngine demoInterp demoStd dumpCyclicExample.heap ?_ ?_
    (.table 2) [] trivial pretty_print max_depth 0
  · intro v
    exact ⟨demoToString v, rfl⟩
  · intro r
    match r with
    | 0 => exact ⟨⟨by decide, by decide⟩,
        by simp [heapGet, dumpCyclicExample, demoGlobals, DumpableValue]⟩
    | 1 => exact ⟨⟨by decide, by decide⟩,
        by simp [heapGet, dumpCyclicExample, demoGlobals, DumpableValue]⟩
    | 2 => exact ⟨⟨by decide, by decide⟩,
        by simp [heapGet, dumpCyclicExample, demoGlobals, DumpableValue]⟩
    | r + 3 =>
      have h : heapGet dumpCyclicExample.heap (r + 3) = [] := by
        simp [heapGet, dumpCyclicExample, demoGlobals]
      rw [h]
      exact ⟨⟨by decide, by decide⟩, by simp⟩

end Luaw
